import Mathlib

/-!
Shallow embedding of the mindful-makers deep-listening SDK audio-analysis
engine and of its sound-search collaborator.  The repository ships two demo
scripts; the engine itself is described by the design document, so the core
definitions below are modelled from the spec, faithful to its words, while
the demo scripts remain the authority for everything they observe (result
record keys, the preview-url guard, the preset table access).
-/

open scoped Classical

namespace MindfulSDK

/-- Error taxonomy.  Modelled from the spec: section 7 names the outcomes
InvalidParameter, InsufficientSignal, DecodeError, Cancelled and
AnalysisFailed, the last wrapping the first underlying cause. -/
inductive AnalysisError where
  | invalidParameter
  | insufficientSignal
  | decodeError
  | cancelled
  | analysisFailed (cause : AnalysisError)
  deriving DecidableEq, Repr

/-- Positive part, used for spectral flux (sum of positive differences). -/
noncomputable def posPart (x : ℝ) : ℝ := max x 0

/-- Clamp a real number into the unit interval. -/
noncomputable def clamp01 (x : ℝ) : ℝ := max 0 (min x 1)

/-- Smoothing window applied to every analysis frame.  Modelled from the
spec: section 4.1 asks for a smoothing window function; we use the Hamming
window, which is strictly positive everywhere (coefficients of 0.54 and
0.46), and the degenerate one-point window is the constant 1. -/
noncomputable def windowCoeff (W : ℕ) (j : ℕ) : ℝ :=
  if W ≤ 1 then 1 else 0.54 - 0.46 * Real.cos (2 * Real.pi * j / ((W : ℝ) - 1))

/-- Primitive W-th root of unity used by the discrete Fourier transform. -/
noncomputable def dftRoot (W : ℕ) : ℂ :=
  Complex.exp (2 * Real.pi * Complex.I / W)

/-- Discrete Fourier transform of one analysis frame.  Modelled from the
spec: section 4.1 computes a magnitude spectrum per frame via a discrete
Fourier transform. -/
noncomputable def dft (W : ℕ) (f : Fin W → ℂ) : Fin W → ℂ :=
  fun k => ∑ n : Fin W, f n * (dftRoot W)⁻¹ ^ (k.val * n.val)

/-- Inverse discrete Fourier transform, used by the overlap-add
reconstruction of section 4.4. -/
noncomputable def idft (W : ℕ) (g : Fin W → ℂ) : Fin W → ℂ :=
  fun n => (∑ k : Fin W, g k * dftRoot W ^ (k.val * n.val)) / (W : ℂ)

/-- Ceiling division on naturals, written the way the spec writes it. -/
def ceilDivNat (a b : ℕ) : ℕ := (a + b - 1) / b

/-- Start offsets of the analysis frames.  Modelled from the spec:
section 4.1 advances by the hop size and zero-pads the final partial frame
rather than discarding it, so a frame is emitted at every hop offset until
the current frame reaches the end of the waveform.  The fuel argument only
bounds the recursion; `frameStarts` supplies enough of it. -/
def frameStartsAux (N W H : ℕ) : ℕ → ℕ → List ℕ
  | 0, s => [s]
  | fuel + 1, s => if s + W < N then s :: frameStartsAux N W H fuel (s + H) else [s]

/-- Frame start offsets for a waveform of N samples. -/
def frameStarts (N W H : ℕ) : List ℕ := frameStartsAux N W H N 0

/-- One windowed analysis frame starting at sample s, zero-padded past the
end of the waveform (out-of-range samples read as 0). -/
noncomputable def frame (x : List ℝ) (W s : ℕ) : Fin W → ℂ :=
  fun j => ((windowCoeff W j.val * x.getD (s + j.val) 0 : ℝ) : ℂ)

/-- Magnitude spectrogram plus the geometry needed to invert it.  Modelled
from the spec: section 3 stores the hop and window size with the values;
the complex per-frame spectra are retained so that the documented
overlap-add inverse of sections 4.4 and 8 is definable, and the magnitude
view `Spectrogram.mags` below exposes the non-negative values on
window/2 + 1 frequency bins. -/
structure Spectrogram where
  window : ℕ
  hop : ℕ
  origLen : ℕ
  spectra : List (Fin window → ℂ)

/-- Read one complex bin of a frame spectrum, 0 out of range. -/
noncomputable def finGetC {W : ℕ} (v : Fin W → ℂ) (k : ℕ) : ℂ :=
  if h : k < W then v ⟨k, h⟩ else 0

/-- Magnitude of one frequency bin. -/
noncomputable def binMag {W : ℕ} (v : Fin W → ℂ) (k : ℕ) : ℝ :=
  Complex.abs (finGetC v k)

/-- Magnitude view of the spectrogram: window/2 + 1 bins per frame. -/
noncomputable def Spectrogram.mags (S : Spectrogram) : List (List ℝ) :=
  S.spectra.map (fun v => (List.range (S.window / 2 + 1)).map (binMag v))

/-- FrameTransform.  Modelled from the spec: section 4.1 requires positive
window and hop sizes with hop ≤ window (InvalidParameter otherwise), windows
each overlapping frame, takes a discrete Fourier transform per frame and
stacks the results. -/
noncomputable def FrameTransform.transform (x : List ℝ) (W H : ℕ) :
    Except AnalysisError Spectrogram :=
  if 0 < W ∧ 0 < H ∧ H ≤ W then
    .ok ⟨W, H, x.length, (frameStarts x.length W H).map (fun s => dft W (frame x W s))⟩
  else .error .invalidParameter

/-- Qualitative tempo bands of section 4.2. -/
inductive TempoCategory where
  | very_slow
  | slow
  | moderate
  | fast
  deriving DecidableEq, Repr

/-- Tempo estimate record of section 3. -/
structure TempoResult where
  bpm : ℚ
  category : TempoCategory
  description : String
  deriving DecidableEq, Repr

/-- Category mapping of section 4.2: inclusive lower bound, exclusive
upper, fixed thresholds 60, 90 and 120 BPM. -/
def tempoCategory (b : ℚ) : TempoCategory :=
  if b < 60 then .very_slow
  else if b < 90 then .slow
  else if b < 120 then .moderate
  else .fast

def tempoDescription (c : TempoCategory) : String :=
  match c with
  | .very_slow => "Very slow, deeply calming pulse"
  | .slow => "Slow, meditative pulse"
  | .moderate => "Moderate pulse"
  | .fast => "Fast pulse, stimulating"

/-- Read one magnitude value of a row-major matrix, 0 out of range. -/
noncomputable def rowAt (rows : List (List ℝ)) (t k : ℕ) : ℝ :=
  (rows.getD t []).getD k 0

/-- Onset-strength envelope.  Modelled from the spec: section 4.2 computes
spectral flux per frame, the sum of positive differences between
consecutive frames per-bin magnitudes; the first frame is compared against
silence. -/
noncomputable def onsetEnvelope (S : Spectrogram) : List ℝ :=
  (List.range S.spectra.length).map (fun t =>
    ∑ k in Finset.range (S.window / 2 + 1),
      posPart (rowAt S.mags t k - if t = 0 then 0 else rowAt S.mags (t - 1) k))

/-- Autocorrelation of the envelope at a given lag. -/
noncomputable def autocorr (env : List ℝ) (lag : ℕ) : ℝ :=
  ∑ t in Finset.range (env.length - lag), env.getD t 0 * env.getD (t + lag) 0

/-- Lags whose tempo falls in the documented 40 to 220 BPM search band at
the known frame hop rate (the BPM of lag L is 60*sr/(H*L), so the bounds
are written cross-multiplied over the naturals). -/
def lagCandidates (F sr H : ℕ) : List ℕ :=
  (List.range F).filter (fun lag =>
    decide (1 ≤ lag ∧ 40 * (H * lag) ≤ 60 * sr ∧ 60 * sr ≤ 220 * (H * lag)))

noncomputable def listMaxR (l : List ℝ) : ℝ := l.foldr max 0

/-- Dominant lag: the lag of maximum autocorrelation energy; the spec
tie-break keeps every lag within 1 percent of the maximum and prefers the
lowest BPM, i.e. the largest such lag. -/
noncomputable def chooseLag (env : List ℝ) (lags : List ℕ) : ℕ :=
  (lags.filter (fun lag =>
    decide ((0.99 : ℝ) * listMaxR (lags.map (autocorr env)) ≤ autocorr env lag))).foldr max 1

/-- TempoEstimator.  Modelled from the spec: section 4.2 fails with
InsufficientSignal when the waveform is shorter than one analysis window or
the envelope is entirely zero, otherwise autocorrelates the envelope over
the 40 to 220 BPM lag range and converts the dominant lag to BPM. -/
noncomputable def TempoEstimator.estimate (S : Spectrogram) (sr : ℕ) :
    Except AnalysisError TempoResult :=
  if S.origLen < S.window then .error .insufficientSignal
  else
    let env := onsetEnvelope S
    if ∀ e ∈ env, e = 0 then .error .insufficientSignal
    else
      let lags := lagCandidates S.spectra.length sr S.hop
      if lags = [] then .error .insufficientSignal
      else
        let lag := chooseLag env lags
        let bpm : ℚ := 60 * sr / (S.hop * lag)
        .ok ⟨bpm, tempoCategory bpm, tempoDescription (tempoCategory bpm)⟩

/-- Qualitative spectral characters of section 4.3. -/
inductive WarmthCharacter where
  | bright
  | balanced
  | warm
  deriving DecidableEq, Repr

/-- Warmth record of section 3. -/
structure WarmthResult where
  centroid_hz : ℝ
  warmth_score : ℝ
  character : WarmthCharacter
  description : String

/-- Fixed calibration constant of section 4.3: the upper end of
perceptually bright spectral content, in Hz. -/
def WARMTH_REFERENCE_HZ : ℚ := 4000

/-- Frequency of one spectrogram bin in Hz. -/
noncomputable def binFreq (sr W k : ℕ) : ℝ := (k : ℝ) * sr / W

/-- Per-frame spectral centroid: magnitude-weighted average bin frequency. -/
noncomputable def rowCentroid (sr W : ℕ) (row : List ℝ) : ℝ :=
  (∑ k in Finset.range row.length, binFreq sr W k * row.getD k 0) /
    (∑ k in Finset.range row.length, row.getD k 0)

/-- Frames that are not all-zero are kept; all-zero frames are excluded
from the centroid aggregate to avoid 0/0. -/
noncomputable def nonSilentRows (rows : List (List ℝ)) : List (List ℝ) :=
  rows.filter (fun r => decide (∃ v ∈ r, v ≠ 0))

/-- Character thresholds of section 4.3. -/
noncomputable def warmthCharacterOf (score : ℝ) : WarmthCharacter :=
  if (0.66 : ℝ) ≤ score then .warm
  else if (0.33 : ℝ) ≤ score then .balanced
  else .bright

def warmthDescription (c : WarmthCharacter) : String :=
  match c with
  | .bright => "Bright, airy spectral balance"
  | .balanced => "Balanced spectral content"
  | .warm => "Warm, low-centroid spectral balance"

/-- SpectralWarmthAnalyzer.  Modelled from the spec: section 4.3 averages
the per-frame centroids of the non-silent frames, maps the aggregate
centroid to 1 - clamp(centroid / warmth_reference_hz, 0, 1) and labels it;
it fails with InsufficientSignal when every frame is excluded. -/
noncomputable def SpectralWarmthAnalyzer.analyze (S : Spectrogram) (sr : ℕ) :
    Except AnalysisError WarmthResult :=
  let keep := nonSilentRows S.mags
  if keep = [] then .error .insufficientSignal
  else
    let centroid := (keep.map (rowCentroid sr S.window)).sum / keep.length
    let score := 1 - clamp01 (centroid / (WARMTH_REFERENCE_HZ : ℝ))
    .ok ⟨centroid, score, warmthCharacterOf score,
      warmthDescription (warmthCharacterOf score)⟩

/-- Indices of the frames whose window covers sample n. -/
def coveringIdx (F H W n : ℕ) : List ℕ :=
  (List.range F).filter (fun f => decide (f * H ≤ n ∧ n < f * H + W))

/-- Overlap-add reconstruction.  Modelled from the spec: sections 4.4 and 8
invert a spectrogram back to a time-domain waveform of the same length as
the input by inverse-transforming each frame and overlap-adding, the
accumulated window weight at each sample normalising the sum. -/
noncomputable def invTransform (S : Spectrogram) : List ℝ :=
  (List.range S.origLen).map (fun n =>
    let cov := coveringIdx S.spectra.length S.hop S.window n
    ((cov.map (fun f =>
        (finGetC (idft S.window (S.spectra.getD f (fun _ => 0))) (n - f * S.hop)).re)).sum)
      / ((cov.map (fun f => windowCoeff S.window (n - f * S.hop))).sum))

/-- Median of a list of reals (upper middle of the sorted list). -/
noncomputable def medianR (l : List ℝ) : ℝ :=
  (l.insertionSort (· ≤ ·)).getD (l.length / 2) 0

/-- Median filter along the time axis (per frequency bin, across frames),
3-point kernel clamped at the edges. -/
noncomputable def medianTimeFilter (rows : List (List ℝ)) (t k : ℕ) : ℝ :=
  medianR (((List.range rows.length).filter
    (fun u => decide (t - 1 ≤ u ∧ u ≤ t + 1))).map (fun u => rowAt rows u k))

/-- Median filter along the frequency axis (per frame, across bins),
3-point kernel clamped at the edges. -/
noncomputable def medianFreqFilter (rows : List (List ℝ)) (bins t k : ℕ) : ℝ :=
  medianR (((List.range bins).filter
    (fun u => decide (k - 1 ≤ u ∧ u ≤ k + 1))).map (fun u => rowAt rows t u))

/-- Soft harmonic mask: ratio of the harmonic-filtered estimate to the sum
of both filtered estimates, 0 where both vanish. -/
noncomputable def harmMask (rows : List (List ℝ)) (bins t k : ℕ) : ℝ :=
  let h := medianTimeFilter rows t k
  let p := medianFreqFilter rows bins t k
  if h + p = 0 then 0 else h / (h + p)

/-- Complement soft percussive mask. -/
noncomputable def percMask (rows : List (List ℝ)) (bins t k : ℕ) : ℝ :=
  let h := medianTimeFilter rows t k
  let p := medianFreqFilter rows bins t k
  if h + p = 0 then 0 else p / (h + p)

/-- Apply a soft mask, indexed by frame and by symmetric frequency bin, to
the complex spectra. -/
noncomputable def maskSpectrogram (S : Spectrogram) (mask : ℕ → ℕ → ℝ) : Spectrogram :=
  ⟨S.window, S.hop, S.origLen,
    (List.range S.spectra.length).map (fun t =>
      fun j => (mask t (min j.val (S.window - j.val)) : ℂ)
        * S.spectra.getD t (fun _ => 0) j)⟩

/-- HarmonicPercussiveSeparator.  Modelled from the spec: section 4.4
median-filters the magnitudes along time and along frequency, builds the
two soft masks, applies them to the spectra and inverts each masked
spectrogram back to a waveform via overlap-add. -/
noncomputable def HarmonicPercussiveSeparator.separate (S : Spectrogram) :
    List ℝ × List ℝ :=
  let rows := S.mags
  let bins := S.window / 2 + 1
  (invTransform (maskSpectrogram S (fun t k => harmMask rows bins t k)),
   invTransform (maskSpectrogram S (fun t k => percMask rows bins t k)))

/-- Energy of a component: mean absolute sample value (section 4.4). -/
noncomputable def meanAbs (l : List ℝ) : ℝ := (l.map (fun v => |v|)).sum / l.length

/-- Silence gap record of section 3. -/
structure SilenceGap where
  start_sec : ℚ
  end_sec : ℚ
  duration_sec : ℚ
  deriving DecidableEq, Repr

/-- Fixed short-time RMS frame length for silence detection, in
milliseconds, inside the 20 to 50 ms band of section 4.5. -/
def SILENCE_FRAME_MS : ℕ := 25

/-- Fixed adaptive-threshold fraction of section 4.5: a frame is silent
when its RMS falls below this fraction of the waveform overall RMS.  The
comparison is made on squared RMS values, which is equivalent because both
sides are non-negative. -/
def SILENCE_RMS_FRACTION : ℚ := 1 / 10

noncomputable def frameMeanSq (x : List ℝ) (L f : ℕ) : ℝ :=
  (∑ j in Finset.range L, x.getD (f * L + j) 0 ^ 2) / L

noncomputable def overallMeanSq (x : List ℝ) : ℝ :=
  (∑ n in Finset.range x.length, x.getD n 0 ^ 2) / x.length

/-- Silence classification of the non-overlapping RMS frames. -/
noncomputable def silentFlags (x : List ℝ) (L : ℕ) : List Bool :=
  (List.range (x.length / L)).map (fun f =>
    decide (frameMeanSq x L f < ((SILENCE_RMS_FRACTION : ℝ)) ^ 2 * overallMeanSq x))

/-- Maximal runs of true flags, as (start index, length) pairs.  The fuel
argument only bounds the recursion; `trueRuns` supplies enough of it. -/
def trueRunsAux : ℕ → ℕ → List Bool → List (ℕ × ℕ)
  | 0, _, _ => []
  | _ + 1, _, [] => []
  | fuel + 1, i, false :: bs => trueRunsAux fuel (i + 1) bs
  | fuel + 1, i, true :: bs =>
      (i, (bs.takeWhile (fun b => b)).length + 1) ::
        trueRunsAux fuel (i + ((bs.takeWhile (fun b => b)).length + 1))
          (bs.dropWhile (fun b => b))

def trueRuns (flags : List Bool) : List (ℕ × ℕ) := trueRunsAux flags.length 0 flags

/-- SilenceGapDetector.  Modelled from the spec: section 4.5 requires
min_silence_ms > 0 (InvalidParameter otherwise), classifies fixed-size
non-overlapping RMS frames against the adaptive threshold, merges
consecutive silent frames into candidate gaps, discards gaps shorter than
min_silence_ms, and reports boundaries at frame granularity in seconds. -/
noncomputable def SilenceGapDetector.detect (x : List ℝ) (sr : ℕ)
    (min_silence_ms : ℚ) : Except AnalysisError (List SilenceGap) :=
  if min_silence_ms ≤ 0 then .error .invalidParameter
  else
    let L := max 1 (sr * SILENCE_FRAME_MS / 1000)
    let runs := trueRuns (silentFlags x L)
    .ok ((runs.map (fun r =>
      ⟨((r.1 * L : ℕ) : ℚ) / (sr : ℚ), (((r.1 + r.2) * L : ℕ) : ℚ) / (sr : ℚ),
        ((r.2 * L : ℕ) : ℚ) / (sr : ℚ)⟩)).filter
      (fun g => decide (min_silence_ms ≤ g.duration_sec * 1000)))

/-- Suitability labels of section 4.6. -/
inductive Suitability where
  | excellent
  | good
  | fair
  | poor
  deriving DecidableEq, Repr

/-- Fixed documented score weight for the tempo sub-score. -/
def WEIGHT_TEMPO : ℚ := 3 / 10

/-- Fixed documented score weight for the warmth sub-score. -/
def WEIGHT_WARMTH : ℚ := 1 / 5

/-- Fixed documented score weight for the inverse-normalised dynamics. -/
def WEIGHT_DYNAMICS : ℚ := 1 / 5

/-- Fixed documented score weight for the inverse-normalised timbral
complexity. -/
def WEIGHT_TIMBRAL : ℚ := 3 / 20

/-- Fixed documented score weight for the inverse-normalised
percussiveness.  The five weights sum to 1. -/
def WEIGHT_PERCUSSIVE : ℚ := 3 / 20

/-- Slow-tempo target of the tempo sub-score, in BPM. -/
def TEMPO_TARGET_BPM : ℚ := 60

/-- Width of the tempo-closeness normalisation band, in BPM. -/
def TEMPO_NORM_RANGE : ℚ := 60

/-- Normalisation reference for the dynamics sub-score. -/
def DYNAMICS_REF : ℚ := 1 / 2

/-- Normalisation reference for the timbral-complexity sub-score, in Hz. -/
def TIMBRAL_REF : ℚ := 4000

/-- Suitability thresholds of section 4.6, fixed at 0.75, 0.5 and 0.25
with inclusive lower bounds. -/
noncomputable def suitabilityOf (score : ℝ) : Suitability :=
  if (0.75 : ℝ) ≤ score then .excellent
  else if (0.5 : ℝ) ≤ score then .good
  else if (0.25 : ℝ) ≤ score then .fair
  else .poor

/-- Aggregate feature report of section 3, an immutable value object. -/
structure FeatureReport where
  tempo_bpm : ℚ
  tempo_category : TempoCategory
  centroid_hz : ℝ
  warmth_score : ℝ
  warmth_character : WarmthCharacter
  dynamics : ℝ
  timbral_complexity : ℝ
  percussiveness : ℝ
  silence_gaps : List SilenceGap
  meditation_score : ℝ
  suitability : Suitability

/-- RMS energy of one analysis frame of the waveform. -/
noncomputable def frameRMS (x : List ℝ) (W s : ℕ) : ℝ :=
  Real.sqrt ((∑ j in Finset.range W, x.getD (s + j) 0 ^ 2) / W)

/-- Dynamics of section 4.6: standard deviation of the per-frame RMS
energies. -/
noncomputable def dynamicsOf (x : List ℝ) (W H : ℕ) : ℝ :=
  let rmsList := (frameStarts x.length W H).map (frameRMS x W)
  let m := rmsList.sum / rmsList.length
  Real.sqrt ((rmsList.map (fun v => (v - m) ^ 2)).sum / rmsList.length)

/-- Spectral bandwidth of one frame: magnitude-weighted standard deviation
of the bin frequency around the centroid. -/
noncomputable def rowBandwidth (sr W : ℕ) (row : List ℝ) : ℝ :=
  Real.sqrt ((∑ k in Finset.range row.length,
    (binFreq sr W k - rowCentroid sr W row) ^ 2 * row.getD k 0) /
    (∑ k in Finset.range row.length, row.getD k 0))

/-- Timbral complexity of section 4.6: mean spectral bandwidth of the
non-silent frames. -/
noncomputable def timbralComplexityOf (S : Spectrogram) (sr : ℕ) : ℝ :=
  let keep := nonSilentRows S.mags
  (keep.map (rowBandwidth sr S.window)).sum / keep.length

/-- Percussiveness of section 4.6: percussive energy over the sum of both
component energies, clamped to the unit interval. -/
noncomputable def percussivenessOf (S : Spectrogram) : ℝ :=
  let hp := HarmonicPercussiveSeparator.separate S
  let hE := meanAbs hp.1
  let pE := meanAbs hp.2
  clamp01 (if hE + pE = 0 then 0 else pE / (hE + pE))

/-- Tempo closeness to the slow-tempo target, normalised to the unit
interval. -/
noncomputable def tempoSubScore (bpm : ℚ) : ℝ :=
  1 - clamp01 (|(bpm : ℝ) - (TEMPO_TARGET_BPM : ℝ)| / (TEMPO_NORM_RANGE : ℝ))

/-- Inverse-normalised sub-score against a fixed reference. -/
noncomputable def inverseNormalized (v : ℝ) (ref : ℚ) : ℝ :=
  1 - clamp01 (v / (ref : ℝ))

/-- Explicit configuration structure passed into the extractor, as section
9 prescribes for the tunable analysis geometry. -/
structure AnalyzerConfig where
  window : ℕ
  hop : ℕ
  min_silence_ms : ℚ
  deriving DecidableEq, Repr

/-- The composite meditation score: fixed weighted combination of the five
normalised sub-scores of section 4.6. -/
noncomputable def meditationScoreOf (tempoScore warmthScore dynScore timbralScore
    percScore : ℝ) : ℝ :=
  (WEIGHT_TEMPO : ℝ) * tempoScore + (WEIGHT_WARMTH : ℝ) * warmthScore
    + (WEIGHT_DYNAMICS : ℝ) * dynScore + (WEIGHT_TIMBRAL : ℝ) * timbralScore
    + (WEIGHT_PERCUSSIVE : ℝ) * percScore

/-- MeditationFeatureExtractor.  Modelled from the spec: section 4.6
orchestrates sections 4.1 to 4.5 once per call, adds dynamics, timbral
complexity and percussiveness, combines the normalised sub-scores with the
fixed weights and labels the result; every sub-feature failure aborts the
whole extraction as a single AnalysisFailed wrapping the first cause. -/
noncomputable def MeditationFeatureExtractor.extract (cfg : AnalyzerConfig)
    (x : List ℝ) (sr : ℕ) : Except AnalysisError FeatureReport :=
  match FrameTransform.transform x cfg.window cfg.hop with
  | .error e => .error (.analysisFailed e)
  | .ok S =>
    match TempoEstimator.estimate S sr with
    | .error e => .error (.analysisFailed e)
    | .ok t =>
      match SpectralWarmthAnalyzer.analyze S sr with
      | .error e => .error (.analysisFailed e)
      | .ok w =>
        match SilenceGapDetector.detect x sr cfg.min_silence_ms with
        | .error e => .error (.analysisFailed e)
        | .ok gaps =>
          .ok ⟨t.bpm, t.category, w.centroid_hz, w.warmth_score, w.character,
            dynamicsOf x cfg.window cfg.hop, timbralComplexityOf S sr,
            percussivenessOf S, gaps,
            meditationScoreOf (tempoSubScore t.bpm) w.warmth_score
              (inverseNormalized (dynamicsOf x cfg.window cfg.hop) DYNAMICS_REF)
              (inverseNormalized (timbralComplexityOf S sr) TIMBRAL_REF)
              (1 - percussivenessOf S),
            suitabilityOf (meditationScoreOf (tempoSubScore t.bpm) w.warmth_score
              (inverseNormalized (dynamicsOf x cfg.window cfg.hop) DYNAMICS_REF)
              (inverseNormalized (timbralComplexityOf S sr) TIMBRAL_REF)
              (1 - percussivenessOf S))⟩

/-- Concrete two-sample waveform used for concrete runs of the pipeline. -/
noncomputable def wav2 : List ℝ := [1 / 2, 1 / 10]

/-- Concrete eight-sample alternating waveform used to run the whole
extraction pipeline at one-sample analysis frames. -/
noncomputable def wav8 : List ℝ :=
  [1 / 2, 1 / 10, 1 / 2, 1 / 10, 1 / 2, 1 / 10, 1 / 2, 1 / 10]

/-- Concrete digitally-silent waveform. -/
noncomputable def silentWav : List ℝ := [0, 0]

/-- Concrete analyzer configuration: one-sample window and hop, 200 ms
minimum silence duration. -/
def demoCfg : AnalyzerConfig := ⟨1, 1, 200⟩

/-- Concrete spectrogram of two all-zero frames, as produced by the
transform of the silent waveform at one-sample window and hop. -/
noncomputable def silentSpec : Spectrogram := ⟨1, 1, 2, [fun _ => 0, fun _ => 0]⟩

/-- Concrete spectrogram of the empty waveform: a single zero-padded
frame. -/
noncomputable def emptySpec : Spectrogram := ⟨1, 1, 0, [fun _ => 0]⟩

/-- Concrete one-frame spectrogram with a non-zero spectrum. -/
noncomputable def demoSpec : Spectrogram := ⟨1, 1, 1, [fun _ => 1]⟩

/-- The spectrogram the transform produces from wav2 at one-sample window
and hop. -/
noncomputable def wav2Spec : Spectrogram :=
  ⟨1, 1, 2, [fun _ => ((1 / 2 : ℝ) : ℂ), fun _ => ((1 / 10 : ℝ) : ℂ)]⟩

/-- The spectrogram the transform produces from wav8 at one-sample window
and hop. -/
noncomputable def wav8Spec : Spectrogram :=
  ⟨1, 1, 8,
    [fun _ => ((1 / 2 : ℝ) : ℂ), fun _ => ((1 / 10 : ℝ) : ℂ),
     fun _ => ((1 / 2 : ℝ) : ℂ), fun _ => ((1 / 10 : ℝ) : ℂ),
     fun _ => ((1 / 2 : ℝ) : ℂ), fun _ => ((1 / 10 : ℝ) : ℂ),
     fun _ => ((1 / 2 : ℝ) : ℂ), fun _ => ((1 / 10 : ℝ) : ℂ)]⟩

/-- The magnitude rows of wav8Spec. -/
noncomputable def mags8 : List (List ℝ) :=
  [[1 / 2], [1 / 10], [1 / 2], [1 / 10], [1 / 2], [1 / 10], [1 / 2], [1 / 10]]

/-- The onset envelope of wav8Spec. -/
noncomputable def env8 : List ℝ := [1 / 2, 0, 2 / 5, 0, 2 / 5, 0, 2 / 5, 0]

/-- The feature report the extractor produces for wav8 at 4 Hz with the
demo configuration. -/
noncomputable def report8 : FeatureReport :=
  ⟨120, .fast, 0, 1, .warm, 1 / 5, 0, 47 / 72, [], 1253 / 2400, .good⟩

end MindfulSDK

namespace FreesoundSDK

/-- Query, filter and description bundle of one meditation preset. -/
structure PresetConfig where
  query : String
  filterTags : List String
  description : String
  deriving DecidableEq, Repr

/-- Fixed catalog of named presets.  Modelled from the spec: sections 6 and
9 describe an immutable lookup table of preset name to query and filter
bundle owned by the search collaborator; the demo script reads it as a
class-level constant without credentials (src/freesound_sdk/example.py
lines 49 to 54) and searches a preset named nature (line 86), and every
entry carries a description (line 53). -/
def MEDITATION_PRESETS : List (String × PresetConfig) :=
  [("singing_bowls",
    ⟨"singing bowl", ["meditation", "bowl"], "Tibetan and crystal singing bowls"⟩),
   ("nature",
    ⟨"nature ambience", ["nature", "ambient"],
      "Natural ambience such as rain, ocean and forest"⟩),
   ("binaural",
    ⟨"binaural beats", ["binaural"], "Binaural beats and sustained drones"⟩)]

/-- Client state: only the configured credentials. -/
structure FreesoundClient where
  client_id : String
  client_secret : String
  deriving DecidableEq, Repr

/-- The preset table seen through any client instance: the same class-level
constant, independent of the instance and of its credentials. -/
def FreesoundClient.presets (_ : FreesoundClient) : List (String × PresetConfig) :=
  MEDITATION_PRESETS

/-- One search-result record, with the fields the demo script reads. -/
structure SoundRecord where
  id : ℕ
  name : String
  duration : ℚ
  rating : ℚ
  tags : List String
  preview_url : String
  deriving DecidableEq, Repr

/-- Python-style value of one record field. -/
inductive FieldValue where
  | natV (n : ℕ)
  | strV (s : String)
  | ratV (q : ℚ)
  | listV (l : List String)
  deriving DecidableEq, Repr

/-- Dictionary view of a search-result record: exactly the keys the demo
script accesses on every returned record (src/freesound_sdk/example.py
lines 76 to 110). -/
def SoundRecord.toDict (s : SoundRecord) : List (String × FieldValue) :=
  [("id", .natV s.id), ("name", .strV s.name), ("duration", .ratV s.duration),
   ("rating", .ratV s.rating), ("tags", .listV s.tags),
   ("preview_url", .strV s.preview_url)]

/-- The key set of the records the program returns. -/
def soundRecordKeys : List String :=
  ["id", "name", "duration", "rating", "tags", "preview_url"]

/-- The field list exactly as the spec section 6 words it, kept for
comparison against the keys the program actually uses. -/
def specResultFields : List String :=
  ["id", "name", "duration_seconds", "average_rating", "tags", "preview_url"]

/-- Sound-search collaborator.  Modelled from the spec: section 6 returns,
for a text query, a duration range and a page size, an ordered sequence of
result records; no ranking algorithm is specified (section 1 non-goals),
so the remote catalog is an explicit parameter and results keep its
order. -/
def searchSounds (catalog : List SoundRecord) (query : String)
    (durLo durHi : ℚ) (pageSize : ℕ) : List SoundRecord :=
  (catalog.filter (fun s =>
    decide (query ∈ s.tags ∧ durLo ≤ s.duration ∧ s.duration ≤ durHi))).take pageSize

/-- Truthiness guard of the demo script: a preview is downloaded only when
preview_url is non-empty (src/freesound_sdk/example.py line 106). -/
def shouldDownloadPreview (s : SoundRecord) : Bool := !s.preview_url.isEmpty

/-- The records the demo script would download previews for. -/
def downloadList (sounds : List SoundRecord) : List SoundRecord :=
  sounds.filter shouldDownloadPreview

/-- Concrete record lacking a preview (empty preview_url). -/
def demoSound : SoundRecord := ⟨7, "Tibetan Bowl", 12, 4, ["singing bowl"], ""⟩

/-- Concrete record with a usable preview URL. -/
def demoSound2 : SoundRecord :=
  ⟨8, "Crystal Bowl", 20, 5, ["singing bowl"],
    "https://cdn.freesound.org/previews/8.mp3"⟩

/-- Concrete remote catalog for concrete searches. -/
def demoCatalog : List SoundRecord := [demoSound, demoSound2]

end FreesoundSDK

namespace MindfulSDK

theorem clamp01_nonneg (x : ℝ) : 0 ≤ clamp01 x := le_max_left 0 _

theorem clamp01_le_one (x : ℝ) : clamp01 x ≤ 1 := by
  unfold clamp01
  rcases le_total x 1 with h | h
  · rw [min_eq_left h]
    exact max_le zero_le_one h
  · simp [min_eq_right h]

theorem posPart_nonneg (x : ℝ) : 0 ≤ posPart x := le_max_right x 0

theorem windowCoeff_pos (W j : ℕ) : 0 < windowCoeff W j := by
  unfold windowCoeff
  split
  · norm_num
  · have h := Real.neg_one_le_cos (2 * Real.pi * j / ((W : ℝ) - 1))
    have h2 := Real.cos_le_one (2 * Real.pi * j / ((W : ℝ) - 1))
    nlinarith

theorem dftRoot_ne_zero (W : ℕ) : dftRoot W ≠ 0 := Complex.exp_ne_zero _

/-- The inverse transform undoes the forward transform exactly. -/
theorem dft_inversion {W : ℕ} (f : Fin W → ℂ) : idft W (dft W f) = f := by
  funext n
  have hW : W ≠ 0 := n.pos.ne'
  have hWc : (W : ℂ) ≠ 0 := Nat.cast_ne_zero.mpr hW
  have hprim : IsPrimitiveRoot (dftRoot W) W := Complex.isPrimitiveRoot_exp W hW
  have hr0 : dftRoot W ≠ 0 := dftRoot_ne_zero W
  have key : ∀ m : Fin W,
      (∑ k : Fin W, (dftRoot W)⁻¹ ^ (k.val * m.val) * dftRoot W ^ (k.val * n.val))
        = if m = n then (W : ℂ) else 0 := by
    intro m
    have hterm : ∀ k : Fin W,
        (dftRoot W)⁻¹ ^ (k.val * m.val) * dftRoot W ^ (k.val * n.val)
          = ((dftRoot W)⁻¹ ^ m.val * dftRoot W ^ n.val) ^ k.val := by
      intro k
      rw [mul_pow, ← pow_mul, ← pow_mul, Nat.mul_comm m.val k.val,
        Nat.mul_comm n.val k.val]
    rw [Finset.sum_congr rfl fun k _ => hterm k]
    rw [Fin.sum_univ_eq_sum_range (fun k =>
      ((dftRoot W)⁻¹ ^ m.val * dftRoot W ^ n.val) ^ k) W]
    by_cases hmn : m = n
    · subst hmn
      have h1 : (dftRoot W ^ m.val)⁻¹ * dftRoot W ^ m.val = 1 :=
        inv_mul_cancel₀ (pow_ne_zero _ hr0)
      simp [inv_pow, h1]
    · have hμW : ((dftRoot W)⁻¹ ^ m.val * dftRoot W ^ n.val) ^ W = 1 := by
        rw [mul_pow, ← pow_mul, ← pow_mul, Nat.mul_comm m.val W, Nat.mul_comm n.val W,
          pow_mul, pow_mul, inv_pow, hprim.pow_eq_one]
        simp
      have hμ1 : (dftRoot W)⁻¹ ^ m.val * dftRoot W ^ n.val ≠ 1 := by
        intro h
        rw [inv_pow, inv_mul_eq_one₀ (pow_ne_zero _ hr0)] at h
        exact hmn (Fin.ext (hprim.pow_inj m.isLt n.isLt h))
      rw [geom_sum_eq hμ1 W, hμW]
      simp [hmn]
  simp only [idft, dft]
  rw [Finset.sum_congr rfl fun k _ => Finset.sum_mul
    (Finset.univ : Finset (Fin W)) (fun m => f m * (dftRoot W)⁻¹ ^ (k.val * m.val))
    (dftRoot W ^ (k.val * n.val))]
  rw [Finset.sum_comm]
  have step : ∀ m : Fin W,
      (∑ k : Fin W, f m * (dftRoot W)⁻¹ ^ (k.val * m.val) * dftRoot W ^ (k.val * n.val))
        = f m * (if m = n then (W : ℂ) else 0) := by
    intro m
    rw [← key m, Finset.mul_sum]
    exact Finset.sum_congr rfl fun k _ => by ring
  rw [Finset.sum_congr rfl fun m _ => step m]
  simp [Finset.sum_ite_eq, hWc]

theorem frameStartsAux_eq (N W H : ℕ) (hH : 0 < H) :
    ∀ fuel s, N ≤ s + fuel →
      frameStartsAux N W H fuel s
        = (List.range (ceilDivNat (N - s - W) H + 1)).map (fun i => s + i * H) := by
  intro fuel
  induction fuel with
  | zero =>
    intro s hs
    have hsw : ¬ s + W < N := by omega
    have h0 : N - s - W = 0 := by omega
    simp [frameStartsAux, h0, ceilDivNat, Nat.div_eq_of_lt, hH, List.range_succ]
  | succ fuel ih =>
    intro s hs
    by_cases hsw : s + W < N
    · have hrec := ih (s + H) (by omega)
      have hm : 0 < N - s - W := by omega
      have hcd : ceilDivNat (N - s - W) H = ceilDivNat (N - (s + H) - W) H + 1 := by
        unfold ceilDivNat
        rcases le_or_lt (N - s - W) H with hle | hlt
        · have h1 : N - (s + H) - W = 0 := by omega
          have h2 : (N - s - W + H - 1) / H = 1 :=
            Nat.div_eq_of_lt_le (by omega) (by omega)
          have h3 : (N - (s + H) - W + H - 1) / H = 0 := by
            rw [h1]
            exact Nat.div_eq_of_lt (by omega)
          omega
        · have h3 : N - s - W + H - 1 = (N - (s + H) - W + H - 1) + H := by omega
          rw [h3, Nat.add_div_right _ hH]
      rw [frameStartsAux, if_pos hsw, hrec, hcd]
      conv_rhs => rw [List.range_succ_eq_map]
      simp only [List.map_cons, List.map_map, Nat.zero_mul, Nat.add_zero]
      congr 1
      apply List.map_congr_left
      intro i _
      simp only [Function.comp_apply, Nat.succ_eq_add_one]
      ring
    · have h0 : N - s - W = 0 := by omega
      simp [frameStartsAux, if_neg hsw, h0, ceilDivNat, Nat.div_eq_of_lt, hH,
        List.range_succ]

theorem frameStarts_eq (N W H : ℕ) (hH : 0 < H) :
    frameStarts N W H = (List.range (ceilDivNat (N - W) H + 1)).map (fun i => i * H) := by
  rw [frameStarts, frameStartsAux_eq N W H hH N 0 (by omega)]
  simp

theorem frameStarts_length (N W H : ℕ) (hH : 0 < H) :
    (frameStarts N W H).length = ceilDivNat (N - W) H + 1 := by
  rw [frameStarts_eq N W H hH]
  simp

theorem ceilDivNat_cast (a b : ℕ) (hb : 0 < b) :
    (ceilDivNat a b : ℤ) = ⌈(a : ℚ) / (b : ℚ)⌉ := by
  have hbq : (0 : ℚ) < b := by exact_mod_cast hb
  have h1 : ceilDivNat a b * b ≤ a + b - 1 := Nat.div_mul_le_self (a + b - 1) b
  have h2 : a + b - 1 < (a + b - 1) / b * b + b := Nat.lt_div_mul_add hb
  have hk1 : ceilDivNat a b * b < a + b := by omega
  have hk2 : a ≤ ceilDivNat a b * b := by
    unfold ceilDivNat at *
    omega
  symm
  rw [Int.ceil_eq_iff]
  constructor
  · have hc1 : ((ceilDivNat a b : ℚ)) * b < a + b := by exact_mod_cast hk1
    rw [lt_div_iff₀ hbq]
    push_cast
    linarith
  · rw [div_le_iff₀ hbq]
    push_cast
    exact_mod_cast hk2

theorem transform_ok (x : List ℝ) (W H : ℕ) (hW : 0 < W) (hH : 0 < H) (hHW : H ≤ W) :
    FrameTransform.transform x W H
      = .ok ⟨W, H, x.length,
          (frameStarts x.length W H).map (fun s => dft W (frame x W s))⟩ := by
  rw [FrameTransform.transform, if_pos ⟨hW, hH, hHW⟩]

/-- C2: for every waveform of N samples and positive window and hop sizes
with hop ≤ window, the transform returns a Spectrogram with exactly
ceil((N - window)/hop) + 1 frames when N ≥ window, exactly one zero-padded
frame when N < window, and every magnitude value in it is non-negative. -/
theorem C2_transform_frame_count_and_nonneg (x : List ℝ) (W H : ℕ)
    (hW : 0 < W) (hH : 0 < H) (hHW : H ≤ W) :
    ∃ S : Spectrogram, FrameTransform.transform x W H = .ok S ∧
      (W ≤ x.length →
        (S.spectra.length : ℤ) = ⌈((x.length : ℚ) - (W : ℚ)) / (H : ℚ)⌉ + 1) ∧
      (x.length < W → S.spectra.length = 1) ∧
      (∀ row ∈ S.mags, ∀ v ∈ row, 0 ≤ v) := by
  refine ⟨_, transform_ok x W H hW hH hHW, ?_, ?_, ?_⟩
  · intro hWN
    have hlen : ((frameStarts x.length W H).map (fun s => dft W (frame x W s))).length
        = ceilDivNat (x.length - W) H + 1 := by
      rw [List.length_map, frameStarts_length _ _ _ hH]
    rw [hlen,
      show ((x.length : ℚ) - (W : ℚ)) = ((x.length - W : ℕ) : ℚ) from
        (Nat.cast_sub hWN).symm,
      ← ceilDivNat_cast _ _ hH]
    push_cast
    ring
  · intro hNW
    have h0 : x.length - W = 0 := by omega
    have h1 : ceilDivNat 0 H = 0 := by
      unfold ceilDivNat
      exact Nat.div_eq_of_lt (by omega)
    simp [List.length_map, frameStarts_length _ _ _ hH, h0, h1]
  · intro row hrow v hv
    simp only [Spectrogram.mags, List.mem_map] at hrow
    obtain ⟨vec, hvec, rfl⟩ := hrow
    simp only [List.mem_map] at hv
    obtain ⟨k, hk, rfl⟩ := hv
    exact AbsoluteValue.nonneg _ _

/-- Concrete run of the C2 theorem at a two-sample waveform with
one-sample window and hop. -/
theorem C2_transform_frame_count_and_nonneg_witness :
    ∃ S : Spectrogram, FrameTransform.transform wav2 1 1 = .ok S ∧
      (1 ≤ wav2.length →
        (S.spectra.length : ℤ) = ⌈((wav2.length : ℚ) - ((1 : ℕ) : ℚ)) / ((1 : ℕ) : ℚ)⌉ + 1) ∧
      (wav2.length < 1 → S.spectra.length = 1) ∧
      (∀ row ∈ S.mags, ∀ v ∈ row, 0 ≤ v) :=
  C2_transform_frame_count_and_nonneg wav2 1 1 one_pos one_pos le_rfl

theorem trueRunsAux_mem : ∀ (fuel i : ℕ) (bs : List Bool),
    ∀ r ∈ trueRunsAux fuel i bs, i ≤ r.1 ∧ 1 ≤ r.2 := by
  intro fuel
  induction fuel with
  | zero =>
    intro i bs r hr
    simp [trueRunsAux] at hr
  | succ fuel ih =>
    intro i bs r hr
    cases bs with
    | nil => simp [trueRunsAux] at hr
    | cons b bs2 =>
      cases b with
      | false =>
        have h := ih (i + 1) bs2 r (by simpa [trueRunsAux] using hr)
        omega
      | true =>
        simp only [trueRunsAux, List.mem_cons] at hr
        rcases hr with h | h
        · subst h
          exact ⟨le_rfl, by omega⟩
        · have h2 := ih _ _ r h
          omega

theorem trueRunsAux_pairwise : ∀ (fuel i : ℕ) (bs : List Bool),
    List.Pairwise (fun a b : ℕ × ℕ => a.1 < b.1) (trueRunsAux fuel i bs) := by
  intro fuel
  induction fuel with
  | zero =>
    intro i bs
    simp [trueRunsAux]
  | succ fuel ih =>
    intro i bs
    cases bs with
    | nil => simp [trueRunsAux]
    | cons b bs2 =>
      cases b with
      | false => simpa [trueRunsAux] using ih (i + 1) bs2
      | true =>
        simp only [trueRunsAux]
        refine List.pairwise_cons.mpr ⟨?_, ih _ _⟩
        intro r hr
        have h := trueRunsAux_mem fuel _ _ r hr
        omega

/-- C6: detection rejects a non-positive minimum silence duration with
InvalidParameter; for every positive one it succeeds with a possibly empty
sequence of gaps ordered by start time, each with start before end. -/
theorem C6_detect_silence_gaps (x : List ℝ) (sr : ℕ) (ms : ℚ) (hsr : 0 < sr) :
    (ms ≤ 0 → SilenceGapDetector.detect x sr ms = .error .invalidParameter) ∧
    (0 < ms → ∃ gaps, SilenceGapDetector.detect x sr ms = .ok gaps ∧
      List.Pairwise (fun a b : SilenceGap => a.start_sec < b.start_sec) gaps ∧
      ∀ g ∈ gaps, g.start_sec < g.end_sec) := by
  have hsrq : (0 : ℚ) < (sr : ℚ) := by exact_mod_cast hsr
  have hL : 0 < max 1 (sr * SILENCE_FRAME_MS / 1000) :=
    Nat.lt_of_lt_of_le one_pos (le_max_left _ _)
  constructor
  · intro h
    rw [SilenceGapDetector.detect, if_pos h]
  · intro h
    simp only [SilenceGapDetector.detect, if_neg (not_le.mpr h)]
    refine ⟨_, rfl, ?_, ?_⟩
    · apply List.Pairwise.filter
      apply List.Pairwise.map
      · intro a b hab
        have hmul : a.1 * max 1 (sr * SILENCE_FRAME_MS / 1000)
            < b.1 * max 1 (sr * SILENCE_FRAME_MS / 1000) :=
          (Nat.mul_lt_mul_right hL).mpr hab
        have hc : ((a.1 * max 1 (sr * SILENCE_FRAME_MS / 1000) : ℕ) : ℚ)
            < ((b.1 * max 1 (sr * SILENCE_FRAME_MS / 1000) : ℕ) : ℚ) := by
          exact_mod_cast hmul
        exact div_lt_div_of_pos_right hc hsrq
      · exact trueRunsAux_pairwise _ _ _
    · intro g hg
      rw [List.mem_filter] at hg
      obtain ⟨r, hr, rfl⟩ := List.mem_map.mp hg.1
      have hmem := trueRunsAux_mem _ _ _ r hr
      have hmul : r.1 * max 1 (sr * SILENCE_FRAME_MS / 1000)
          < (r.1 + r.2) * max 1 (sr * SILENCE_FRAME_MS / 1000) :=
        (Nat.mul_lt_mul_right hL).mpr (by omega)
      have hc : ((r.1 * max 1 (sr * SILENCE_FRAME_MS / 1000) : ℕ) : ℚ)
          < (((r.1 + r.2) * max 1 (sr * SILENCE_FRAME_MS / 1000) : ℕ) : ℚ) := by
        exact_mod_cast hmul
      exact div_lt_div_of_pos_right hc hsrq

theorem silent_getD (x : List ℝ) (hx : ∀ a ∈ x, a = 0) (n : ℕ) : x.getD n 0 = 0 := by
  rcases lt_or_le n x.length with h | h
  · rw [List.getD_eq_getElem _ _ h]
    exact hx _ (List.getElem_mem _)
  · exact List.getD_eq_default _ _ h

theorem frame_silent (x : List ℝ) (hx : ∀ a ∈ x, a = 0) (W s : ℕ) :
    frame x W s = fun _ => 0 := by
  funext j
  simp only [frame]
  rw [silent_getD x hx (s + j.val)]
  simp

theorem dft_zero_frame (W : ℕ) : dft W (fun _ => 0) = fun _ => 0 := by
  funext k
  simp [dft]

theorem binMag_zero (W k : ℕ) : binMag (fun _ => (0 : ℂ) : Fin W → ℂ) k = 0 := by
  simp [binMag, finGetC]

theorem mags_all_zero (S : Spectrogram) (hS : ∀ v ∈ S.spectra, v = fun _ => 0) :
    ∀ row ∈ S.mags, ∀ v ∈ row, v = 0 := by
  intro row hrow v hv
  simp only [Spectrogram.mags, List.mem_map] at hrow
  obtain ⟨vec, hvec, rfl⟩ := hrow
  simp only [List.mem_map] at hv
  obtain ⟨k, hk, rfl⟩ := hv
  rw [hS vec hvec]
  exact binMag_zero _ _

theorem rowAt_zero (rows : List (List ℝ)) (h : ∀ row ∈ rows, ∀ v ∈ row, v = 0)
    (t k : ℕ) : rowAt rows t k = 0 := by
  rw [rowAt]
  rcases lt_or_le t rows.length with ht | ht
  · rw [List.getD_eq_getElem _ _ ht]
    rcases lt_or_le k (rows[t]).length with hk | hk
    · rw [List.getD_eq_getElem _ _ hk]
      exact h _ (List.getElem_mem _) _ (List.getElem_mem _)
    · exact List.getD_eq_default _ _ hk
  · rw [List.getD_eq_default _ _ ht]
    simp

theorem onsetEnvelope_zero (S : Spectrogram)
    (h : ∀ row ∈ S.mags, ∀ v ∈ row, v = 0) :
    ∀ e ∈ onsetEnvelope S, e = 0 := by
  intro e he
  simp only [onsetEnvelope, List.mem_map, List.mem_range] at he
  obtain ⟨t, ht, rfl⟩ := he
  apply Finset.sum_eq_zero
  intro k hk
  rw [rowAt_zero _ h]
  have hsub : (0 : ℝ) - (if t = 0 then 0 else rowAt S.mags (t - 1) k) = 0 := by
    split
    · ring
    · rw [rowAt_zero _ h]
      ring
  rw [hsub]
  simp [posPart]

theorem estimate_all_zero (S : Spectrogram) (sr : ℕ)
    (h : ∀ row ∈ S.mags, ∀ v ∈ row, v = 0) :
    TempoEstimator.estimate S sr = .error .insufficientSignal := by
  simp only [TempoEstimator.estimate]
  by_cases h1 : S.origLen < S.window
  · rw [if_pos h1]
  · rw [if_neg h1, if_pos (onsetEnvelope_zero S h)]

theorem estimate_short (S : Spectrogram) (sr : ℕ) (h : S.origLen < S.window) :
    TempoEstimator.estimate S sr = .error .insufficientSignal := by
  simp only [TempoEstimator.estimate]
  rw [if_pos h]

theorem analyze_all_zero (T : Spectrogram) (sr : ℕ)
    (h : ∀ row ∈ T.mags, ∀ v ∈ row, v = 0) :
    SpectralWarmthAnalyzer.analyze T sr = .error .insufficientSignal := by
  have hnil : nonSilentRows T.mags = [] := by
    rw [nonSilentRows, List.filter_eq_nil_iff]
    intro row hrow
    simp only [decide_eq_true_eq, not_exists, not_and, not_not]
    exact fun v hv => h row hrow v hv
  simp only [SpectralWarmthAnalyzer.analyze, hnil]
  simp

/-- C3: a digitally-silent waveform of any valid length, and any waveform
shorter than one analysis window, make TempoEstimator.estimate fail with
InsufficientSignal on the transformed spectrogram; and
SpectralWarmthAnalyzer.analyze fails with InsufficientSignal whenever
every frame of the spectrogram has all-zero magnitude. -/
theorem C3_insufficient_signal_on_silence (x y : List ℝ) (W H sr : ℕ)
    (Sx Sy T : Spectrogram)
    (hW : 0 < W) (hH : 0 < H) (hHW : H ≤ W)
    (hTx : FrameTransform.transform x W H = .ok Sx) (hx : ∀ a ∈ x, a = 0)
    (hTy : FrameTransform.transform y W H = .ok Sy) (hy : y.length < W)
    (hT : ∀ row ∈ T.mags, ∀ v ∈ row, v = 0) :
    TempoEstimator.estimate Sx sr = .error .insufficientSignal ∧
    TempoEstimator.estimate Sy sr = .error .insufficientSignal ∧
    SpectralWarmthAnalyzer.analyze T sr = .error .insufficientSignal := by
  rw [transform_ok x W H hW hH hHW] at hTx
  rw [transform_ok y W H hW hH hHW] at hTy
  have hSx : (⟨W, H, x.length,
      (frameStarts x.length W H).map (fun s => dft W (frame x W s))⟩ : Spectrogram)
      = Sx := by injection hTx
  have hSy : (⟨W, H, y.length,
      (frameStarts y.length W H).map (fun s => dft W (frame y W s))⟩ : Spectrogram)
      = Sy := by injection hTy
  refine ⟨?_, ?_, analyze_all_zero T sr hT⟩
  · rw [← hSx]
    apply estimate_all_zero
    apply mags_all_zero
    intro v hv
    simp only [List.mem_map] at hv
    obtain ⟨s, hs, rfl⟩ := hv
    rw [frame_silent x hx, dft_zero_frame]
  · rw [← hSy]
    exact estimate_short _ sr hy

theorem silentWav_silent : ∀ a ∈ silentWav, a = 0 := by
  intro a ha
  simp only [silentWav, List.mem_cons, List.not_mem_nil, or_false] at ha
  rcases ha with h | h <;> exact h

theorem silent_transform_eval :
    FrameTransform.transform silentWav 1 1 = .ok silentSpec := by
  rw [transform_ok silentWav 1 1 one_pos one_pos le_rfl]
  show Except.ok (⟨1, 1, 2,
    [dft 1 (frame silentWav 1 0), dft 1 (frame silentWav 1 1)]⟩ : Spectrogram)
      = Except.ok silentSpec
  rw [frame_silent silentWav silentWav_silent 1 0,
    frame_silent silentWav silentWav_silent 1 1]
  simp only [dft_zero_frame]
  rfl

theorem empty_transform_eval :
    FrameTransform.transform ([] : List ℝ) 1 1 = .ok emptySpec := by
  rw [transform_ok ([] : List ℝ) 1 1 one_pos one_pos le_rfl]
  show Except.ok (⟨1, 1, 0, [dft 1 (frame ([] : List ℝ) 1 0)]⟩ : Spectrogram)
      = Except.ok emptySpec
  rw [frame_silent ([] : List ℝ) (by simp) 1 0]
  simp only [dft_zero_frame]
  rfl

theorem silentSpec_spectra_zero : ∀ v ∈ silentSpec.spectra, v = fun _ => 0 := by
  intro v hv
  simp only [silentSpec, List.mem_cons, List.not_mem_nil, or_false] at hv
  rcases hv with h | h <;> exact h

/-- Concrete run of the C3 theorem: the two-sample silent waveform, the
empty waveform against a one-sample window, and the all-zero two-frame
spectrogram. -/
theorem C3_insufficient_signal_on_silence_witness :
    TempoEstimator.estimate silentSpec 4 = .error .insufficientSignal ∧
    TempoEstimator.estimate emptySpec 4 = .error .insufficientSignal ∧
    SpectralWarmthAnalyzer.analyze silentSpec 4 = .error .insufficientSignal :=
  C3_insufficient_signal_on_silence silentWav [] 1 1 4 silentSpec emptySpec silentSpec
    one_pos one_pos le_rfl silent_transform_eval silentWav_silent
    empty_transform_eval (by simp)
    (mags_all_zero silentSpec silentSpec_spectra_zero)

/-- C5: on every spectrogram with at least one non-silent frame, the
warmth analyzer returns warmth_score = 1 - clamp(centroid /
warmth_reference_hz, 0, 1), always inside the unit interval, and the
character label follows the fixed 0.66 and 0.33 thresholds. -/
theorem C5_warmth_score_formula (S : Spectrogram) (sr : ℕ)
    (h : ∃ row ∈ S.mags, ∃ v ∈ row, v ≠ 0) :
    ∃ r : WarmthResult, SpectralWarmthAnalyzer.analyze S sr = .ok r ∧
      r.warmth_score = 1 - clamp01 (r.centroid_hz / (WARMTH_REFERENCE_HZ : ℝ)) ∧
      0 ≤ r.warmth_score ∧ r.warmth_score ≤ 1 ∧
      ((0.66 : ℝ) ≤ r.warmth_score → r.character = .warm) ∧
      ((0.33 : ℝ) ≤ r.warmth_score ∧ r.warmth_score < 0.66 →
        r.character = .balanced) ∧
      (r.warmth_score < 0.33 → r.character = .bright) := by
  have hne : nonSilentRows S.mags ≠ [] := by
    obtain ⟨row, hrow, v, hv, hvne⟩ := h
    intro hempty
    have hmem : row ∈ nonSilentRows S.mags := by
      rw [nonSilentRows, List.mem_filter]
      refine ⟨hrow, ?_⟩
      simp only [decide_eq_true_eq]
      exact ⟨v, hv, hvne⟩
    rw [hempty] at hmem
    exact List.not_mem_nil row hmem
  simp only [SpectralWarmthAnalyzer.analyze, if_neg hne]
  refine ⟨_, rfl, rfl, ?_, ?_, ?_, ?_, ?_⟩
  · have := clamp01_le_one
      (((nonSilentRows S.mags).map (rowCentroid sr S.window)).sum
        / (nonSilentRows S.mags).length / (WARMTH_REFERENCE_HZ : ℝ))
    simp only []
    linarith
  · have := clamp01_nonneg
      (((nonSilentRows S.mags).map (rowCentroid sr S.window)).sum
        / (nonSilentRows S.mags).length / (WARMTH_REFERENCE_HZ : ℝ))
    simp only []
    linarith
  · intro h66
    show warmthCharacterOf _ = _
    rw [warmthCharacterOf, if_pos h66]
  · rintro ⟨h33, h66⟩
    show warmthCharacterOf _ = _
    rw [warmthCharacterOf, if_neg (not_le.mpr h66), if_pos h33]
  · intro h33
    show warmthCharacterOf _ = _
    rw [warmthCharacterOf, if_neg (not_le.mpr (lt_of_lt_of_le h33 (by norm_num))),
      if_neg (not_le.mpr h33)]

theorem demoSpec_mags : demoSpec.mags = [[1]] := by
  simp [demoSpec, Spectrogram.mags, binMag, finGetC, List.range_succ]

/-- Concrete run of the C5 theorem on the one-frame non-silent
spectrogram. -/
theorem C5_warmth_score_formula_witness :
    ∃ r : WarmthResult, SpectralWarmthAnalyzer.analyze demoSpec 4 = .ok r ∧
      r.warmth_score = 1 - clamp01 (r.centroid_hz / (WARMTH_REFERENCE_HZ : ℝ)) ∧
      0 ≤ r.warmth_score ∧ r.warmth_score ≤ 1 ∧
      ((0.66 : ℝ) ≤ r.warmth_score → r.character = .warm) ∧
      ((0.33 : ℝ) ≤ r.warmth_score ∧ r.warmth_score < 0.66 →
        r.character = .balanced) ∧
      (r.warmth_score < 0.33 → r.character = .bright) :=
  C5_warmth_score_formula demoSpec 4
    (by
      rw [demoSpec_mags]
      exact ⟨[1], by simp, 1, by simp, one_ne_zero⟩)

theorem ceilDivNat_mul_ge (m H : ℕ) (hH : 0 < H) : m ≤ ceilDivNat m H * H := by
  have h2 : m + H - 1 < (m + H - 1) / H * H + H := Nat.lt_div_mul_add hH
  unfold ceilDivNat
  set q := (m + H - 1) / H * H with hq
  omega

theorem list_sum_map_mul_right (l : List ℕ) (w : ℕ → ℝ) (c : ℝ) :
    (l.map fun a => w a * c).sum = (l.map w).sum * c := by
  induction l with
  | nil => simp
  | cons a l ih =>
    simp only [List.map_cons, List.sum_cons, ih]
    ring

theorem covering_exists (N W H n : ℕ) (hH : 0 < H) (hHW : H ≤ W)
    (hn : n < N) :
    ∃ f, f ∈ coveringIdx (ceilDivNat (N - W) H + 1) H W n := by
  have hge : N - W ≤ ceilDivNat (N - W) H * H := ceilDivNat_mul_ge _ _ hH
  rcases le_or_lt (n / H) (ceilDivNat (N - W) H) with hc | hc
  · refine ⟨n / H, ?_⟩
    rw [coveringIdx, List.mem_filter, List.mem_range, decide_eq_true_eq]
    have h1 : n / H * H ≤ n := Nat.div_mul_le_self n H
    have h2 : n < n / H * H + H := Nat.lt_div_mul_add hH
    set p := n / H * H with hp
    refine ⟨by omega, h1, by omega⟩
  · refine ⟨ceilDivNat (N - W) H, ?_⟩
    rw [coveringIdx, List.mem_filter, List.mem_range, decide_eq_true_eq]
    have h1 : ceilDivNat (N - W) H * H ≤ n / H * H :=
      Nat.mul_le_mul_right H (by omega)
    have h2 : n / H * H ≤ n := Nat.div_mul_le_self n H
    set p := n / H * H with hp
    set q := ceilDivNat (N - W) H * H with hq
    refine ⟨by omega, by omega, by omega⟩

theorem spectra_getD_eq (x : List ℝ) (W H f : ℕ) (hH : 0 < H)
    (hf : f < ceilDivNat (x.length - W) H + 1) :
    ((frameStarts x.length W H).map (fun s => dft W (frame x W s))).getD f
        (fun _ => 0)
      = dft W (frame x W (f * H)) := by
  rw [frameStarts_eq _ _ _ hH, List.map_map]
  rw [List.getD_eq_getElem _ _ (by simpa using hf)]
  simp

theorem inv_term_eq (x : List ℝ) (W H f n : ℕ) (hH : 0 < H)
    (hf : f < ceilDivNat (x.length - W) H + 1)
    (hf1 : f * H ≤ n) (hf2 : n < f * H + W) :
    (finGetC (idft W (((frameStarts x.length W H).map
        (fun s => dft W (frame x W s))).getD f (fun _ => 0))) (n - f * H)).re
      = windowCoeff W (n - f * H) * x.getD n 0 := by
  rw [spectra_getD_eq x W H f hH hf, dft_inversion]
  have hlt : n - f * H < W := by omega
  rw [finGetC, dif_pos hlt]
  show ((windowCoeff W (n - f * H) * x.getD (f * H + (n - f * H)) 0 : ℝ) : ℂ).re = _
  rw [show f * H + (n - f * H) = n by omega]
  exact Complex.ofReal_re _

/-- C7: transforming a waveform and overlap-add inverse-transforming the
unmodified spectrogram reproduces the waveform sample-for-sample within
1e-4 (here: exactly), and the reconstruction has the input length. -/
theorem C7_transform_roundtrip (x : List ℝ) (W H : ℕ)
    (hW : 0 < W) (hH : 0 < H) (hHW : H ≤ W) (S : Spectrogram)
    (hS : FrameTransform.transform x W H = .ok S) :
    (invTransform S).length = x.length ∧
    ∀ n, n < x.length →
      |(invTransform S).getD n 0 - x.getD n 0| ≤ 1 / 10000 := by
  rw [transform_ok x W H hW hH hHW] at hS
  injection hS with hSe
  subst hSe
  have hFlen : ((frameStarts x.length W H).map
      (fun s => dft W (frame x W s))).length
      = ceilDivNat (x.length - W) H + 1 := by
    rw [List.length_map, frameStarts_length _ _ _ hH]
  constructor
  · simp [invTransform]
  · intro n hn
    have hlen : (invTransform ⟨W, H, x.length, (frameStarts x.length W H).map
        (fun s => dft W (frame x W s))⟩).length = x.length := by
      simp [invTransform]
    rw [List.getD_eq_getElem _ _ (by rw [hlen]; exact hn)]
    simp only [invTransform, List.getElem_map, List.getElem_range]
    rw [hFlen]
    have hterm : ∀ f ∈ coveringIdx (ceilDivNat (x.length - W) H + 1) H W n,
        (fun f => (finGetC (idft W (((frameStarts x.length W H).map
            (fun s => dft W (frame x W s))).getD f (fun _ => 0))) (n - f * H)).re) f
          = (fun f => windowCoeff W (n - f * H) * x.getD n 0) f := by
      intro f hf
      rw [coveringIdx, List.mem_filter, List.mem_range, decide_eq_true_eq] at hf
      exact inv_term_eq x W H f n hH hf.1 hf.2.1 hf.2.2
    rw [List.map_congr_left hterm, list_sum_map_mul_right]
    have hpos : 0 < ((coveringIdx (ceilDivNat (x.length - W) H + 1) H W n).map
        (fun f => windowCoeff W (n - f * H))).sum := by
      apply List.sum_pos
      · intro a ha
        obtain ⟨f, hf, rfl⟩ := List.mem_map.mp ha
        exact windowCoeff_pos W (n - f * H)
      · obtain ⟨f, hf⟩ := covering_exists x.length W H n hH hHW hn
        intro hmap
        rw [List.map_eq_nil_iff] at hmap
        rw [hmap] at hf
        exact List.not_mem_nil f hf
    rw [mul_comm, mul_div_assoc, div_self (ne_of_gt hpos), mul_one]
    simp

theorem dft_one (v : Fin 1 → ℂ) : dft 1 v = fun _ => v 0 := by
  funext k
  simp [dft]

theorem frame_one_apply (x : List ℝ) (s : ℕ) (j : Fin 1) :
    frame x 1 s j = ((x.getD s 0 : ℝ) : ℂ) := by
  have hj : j.val = 0 := by omega
  simp [frame, windowCoeff, hj]

theorem wav2_transform_eval : FrameTransform.transform wav2 1 1 = .ok wav2Spec := by
  rw [transform_ok wav2 1 1 one_pos one_pos le_rfl]
  show Except.ok (⟨1, 1, 2,
      [dft 1 (frame wav2 1 0), dft 1 (frame wav2 1 1)]⟩ : Spectrogram)
    = Except.ok wav2Spec
  rw [dft_one, dft_one]
  have h0 : frame wav2 1 0 0 = ((1 / 2 : ℝ) : ℂ) := by
    rw [frame_one_apply]
    norm_num [wav2]
  have h1 : frame wav2 1 1 0 = ((1 / 10 : ℝ) : ℂ) := by
    rw [frame_one_apply]
    norm_num [wav2]
  rw [h0, h1]
  rfl

theorem wav8_transform_eval : FrameTransform.transform wav8 1 1 = .ok wav8Spec := by
  rw [transform_ok wav8 1 1 one_pos one_pos le_rfl]
  show Except.ok (⟨1, 1, 8,
      [dft 1 (frame wav8 1 0), dft 1 (frame wav8 1 1), dft 1 (frame wav8 1 2),
       dft 1 (frame wav8 1 3), dft 1 (frame wav8 1 4), dft 1 (frame wav8 1 5),
       dft 1 (frame wav8 1 6), dft 1 (frame wav8 1 7)]⟩ : Spectrogram)
    = Except.ok wav8Spec
  simp only [dft_one, frame_one_apply]
  rfl

theorem wav8Spec_mags : wav8Spec.mags = mags8 := by
  simp only [wav8Spec, Spectrogram.mags]
  have h01 : List.range 1 = [0] := rfl
  norm_num [binMag, finGetC, Complex.abs_ofReal, mags8, h01]

theorem wav8_env : onsetEnvelope wav8Spec = env8 := by
  have hr1 : Finset.range (wav8Spec.window / 2 + 1) = Finset.range 1 := rfl
  simp only [onsetEnvelope, wav8Spec_mags, hr1]
  show (List.range 8).map _ = env8
  have hmr : List.range 8 = [0, 1, 2, 3, 4, 5, 6, 7] := rfl
  have r0 : rowAt mags8 0 0 = 1 / 2 := rfl
  have r1 : rowAt mags8 1 0 = 1 / 10 := rfl
  have r2 : rowAt mags8 2 0 = 1 / 2 := rfl
  have r3 : rowAt mags8 3 0 = 1 / 10 := rfl
  have r4 : rowAt mags8 4 0 = 1 / 2 := rfl
  have r5 : rowAt mags8 5 0 = 1 / 10 := rfl
  have r6 : rowAt mags8 6 0 = 1 / 2 := rfl
  have r7 : rowAt mags8 7 0 = 1 / 10 := rfl
  simp only [hmr, List.map_cons, List.map_nil, Finset.sum_range_one]
  norm_num [r0, r1, r2, r3, r4, r5, r6, r7, posPart, max_def, env8]

theorem wav8_ac2 : autocorr env8 2 = 13 / 25 := by
  have hlen : env8.length - 2 = 6 := rfl
  simp only [autocorr, hlen]
  norm_num [Finset.sum_range_succ, Finset.sum_range_zero, env8]

theorem wav8_ac3 : autocorr env8 3 = 0 := by
  have hlen : env8.length - 3 = 5 := rfl
  simp only [autocorr, hlen]
  norm_num [Finset.sum_range_succ, Finset.sum_range_zero, env8]

theorem wav8_ac4 : autocorr env8 4 = 9 / 25 := by
  have hlen : env8.length - 4 = 4 := rfl
  simp only [autocorr, hlen]
  norm_num [Finset.sum_range_succ, Finset.sum_range_zero, env8]

theorem wav8_ac5 : autocorr env8 5 = 0 := by
  have hlen : env8.length - 5 = 3 := rfl
  simp only [autocorr, hlen]
  norm_num [Finset.sum_range_succ, Finset.sum_range_zero, env8]

theorem wav8_ac6 : autocorr env8 6 = 1 / 5 := by
  have hlen : env8.length - 6 = 2 := rfl
  simp only [autocorr, hlen]
  norm_num [Finset.sum_range_succ, Finset.sum_range_zero, env8]

theorem wav8_listMaxR :
    listMaxR (([2, 3, 4, 5, 6] : List ℕ).map (autocorr env8)) = 13 / 25 := by
  simp only [List.map_cons, List.map_nil, wav8_ac2, wav8_ac3, wav8_ac4, wav8_ac5,
    wav8_ac6]
  norm_num [listMaxR, List.foldr, max_def]

theorem wav8_chooseLag : chooseLag env8 [2, 3, 4, 5, 6] = 2 := by
  have d2 : decide ((0.99 : ℝ) * listMaxR (([2, 3, 4, 5, 6] : List ℕ).map
      (autocorr env8)) ≤ autocorr env8 2) = true :=
    decide_eq_true (by rw [wav8_listMaxR, wav8_ac2]; norm_num)
  have d3 : decide ((0.99 : ℝ) * listMaxR (([2, 3, 4, 5, 6] : List ℕ).map
      (autocorr env8)) ≤ autocorr env8 3) = false :=
    decide_eq_false (by rw [wav8_listMaxR, wav8_ac3]; norm_num)
  have d4 : decide ((0.99 : ℝ) * listMaxR (([2, 3, 4, 5, 6] : List ℕ).map
      (autocorr env8)) ≤ autocorr env8 4) = false :=
    decide_eq_false (by rw [wav8_listMaxR, wav8_ac4]; norm_num)
  have d5 : decide ((0.99 : ℝ) * listMaxR (([2, 3, 4, 5, 6] : List ℕ).map
      (autocorr env8)) ≤ autocorr env8 5) = false :=
    decide_eq_false (by rw [wav8_listMaxR, wav8_ac5]; norm_num)
  have d6 : decide ((0.99 : ℝ) * listMaxR (([2, 3, 4, 5, 6] : List ℕ).map
      (autocorr env8)) ≤ autocorr env8 6) = false :=
    decide_eq_false (by rw [wav8_listMaxR, wav8_ac6]; norm_num)
  simp only [chooseLag, List.filter_cons, List.filter_nil, d2, d3, d4, d5, d6]
  rfl

theorem wav8_tempo :
    TempoEstimator.estimate wav8Spec 4 = .ok ⟨120, .fast, tempoDescription .fast⟩ := by
  have hlags : lagCandidates wav8Spec.spectra.length 4 wav8Spec.hop
      = [2, 3, 4, 5, 6] := rfl
  have henv : ¬ ∀ e ∈ onsetEnvelope wav8Spec, e = 0 := by
    rw [wav8_env]
    intro hall
    have h := hall (1 / 2) (by simp [env8])
    norm_num at h
  simp only [TempoEstimator.estimate, hlags, wav8_env]
  rw [if_neg (by decide : ¬ (wav8Spec.origLen < wav8Spec.window))]
  rw [if_neg (by rw [← wav8_env] at *; exact henv)]
  rw [if_neg (by simp : ¬ (([2, 3, 4, 5, 6] : List ℕ) = []))]
  rw [wav8_chooseLag]
  have hb : ((60 : ℚ) * ((4 : ℕ) : ℚ) / (((wav8Spec.hop : ℕ) : ℚ) * ((2 : ℕ) : ℚ)))
      = 120 := by
    norm_num [wav8Spec]
  rw [hb]
  have hc : tempoCategory 120 = .fast := by decide
  rw [hc]

theorem wav8_keep : nonSilentRows mags8 = mags8 := by
  rw [nonSilentRows, List.filter_eq_self]
  intro row hrow
  rw [decide_eq_true_eq]
  simp only [mags8, List.mem_cons, List.not_mem_nil, or_false] at hrow
  rcases hrow with h | h | h | h | h | h | h | h <;> subst h <;>
    exact ⟨_, List.mem_cons_self _ _, by norm_num⟩

theorem rowCentroid_half : rowCentroid 4 1 [1 / 2] = 0 := by
  simp only [rowCentroid]
  norm_num [binFreq, Finset.sum_range_one]

theorem rowCentroid_tenth : rowCentroid 4 1 [1 / 10] = 0 := by
  simp only [rowCentroid]
  norm_num [binFreq, Finset.sum_range_one]

theorem wav8_warmth :
    SpectralWarmthAnalyzer.analyze wav8Spec 4
      = .ok ⟨0, 1, .warm, warmthDescription .warm⟩ := by
  simp only [SpectralWarmthAnalyzer.analyze, wav8Spec_mags, wav8_keep]
  rw [if_neg (by simp [mags8] : ¬ (mags8 = []))]
  have hw : wav8Spec.window = 1 := rfl
  have hcen : ((mags8.map (rowCentroid 4 wav8Spec.window)).sum
      / (mags8.length : ℝ)) = 0 := by
    simp only [hw, mags8, List.map_cons, List.map_nil, rowCentroid_half,
      rowCentroid_tenth]
    norm_num
  rw [hcen]
  have hs : (1 : ℝ) - clamp01 (0 / ((WARMTH_REFERENCE_HZ : ℚ) : ℝ)) = 1 := by
    norm_num [clamp01, max_def, min_def]
  rw [hs]
  have hch : warmthCharacterOf 1 = .warm := by
    rw [warmthCharacterOf, if_pos (by norm_num : (0.66 : ℝ) ≤ 1)]
  rw [hch]

theorem frameMeanSq_one (x : List ℝ) (f : ℕ) :
    frameMeanSq x 1 f = x.getD f 0 ^ 2 := by
  simp [frameMeanSq, Finset.sum_range_one]

theorem wav8_over : overallMeanSq wav8 = 13 / 100 := by
  have hlen : wav8.length = 8 := rfl
  simp only [overallMeanSq, hlen]
  norm_num [Finset.sum_range_succ, Finset.sum_range_zero, wav8]

theorem wav8_flags :
    silentFlags wav8 1 = [false, false, false, false, false, false, false, false] := by
  have hth : ∀ f : ℕ, f < 8 →
      ¬ (frameMeanSq wav8 1 f < ((SILENCE_RMS_FRACTION : ℚ) : ℝ) ^ 2
        * overallMeanSq wav8) := by
    intro f hf
    rw [frameMeanSq_one, wav8_over]
    interval_cases f <;> norm_num [wav8, SILENCE_RMS_FRACTION]
  have hlen : wav8.length / 1 = 8 := rfl
  simp only [silentFlags, hlen]
  have hmr : List.range 8 = [0, 1, 2, 3, 4, 5, 6, 7] := rfl
  simp only [hmr, List.map_cons, List.map_nil,
    decide_eq_false (hth 0 (by norm_num)), decide_eq_false (hth 1 (by norm_num)),
    decide_eq_false (hth 2 (by norm_num)), decide_eq_false (hth 3 (by norm_num)),
    decide_eq_false (hth 4 (by norm_num)), decide_eq_false (hth 5 (by norm_num)),
    decide_eq_false (hth 6 (by norm_num)), decide_eq_false (hth 7 (by norm_num))]

theorem wav8_detect : SilenceGapDetector.detect wav8 4 200 = .ok [] := by
  simp only [SilenceGapDetector.detect]
  rw [if_neg (by norm_num : ¬ (200 : ℚ) ≤ 0)]
  have hL : max 1 (4 * SILENCE_FRAME_MS / 1000) = 1 := rfl
  rw [hL, wav8_flags]
  rfl

theorem frameRMS_one (x : List ℝ) (s : ℕ) (h : 0 ≤ x.getD s 0) :
    frameRMS x 1 s = x.getD s 0 := by
  simp only [frameRMS, Finset.sum_range_one, Nat.add_zero, Nat.cast_one, div_one]
  rw [Real.sqrt_sq h]

theorem wav8_dynamics : dynamicsOf wav8 1 1 = 1 / 5 := by
  have hfs : frameStarts wav8.length 1 1 = [0, 1, 2, 3, 4, 5, 6, 7] := rfl
  have hrms : (frameStarts wav8.length 1 1).map (frameRMS wav8 1)
      = [1 / 2, 1 / 10, 1 / 2, 1 / 10, 1 / 2, 1 / 10, 1 / 2, 1 / 10] := by
    rw [hfs]
    simp only [List.map_cons, List.map_nil]
    rw [frameRMS_one wav8 0 (by norm_num [wav8]),
      frameRMS_one wav8 1 (by norm_num [wav8]),
      frameRMS_one wav8 2 (by norm_num [wav8]),
      frameRMS_one wav8 3 (by norm_num [wav8]),
      frameRMS_one wav8 4 (by norm_num [wav8]),
      frameRMS_one wav8 5 (by norm_num [wav8]),
      frameRMS_one wav8 6 (by norm_num [wav8]),
      frameRMS_one wav8 7 (by norm_num [wav8])]
    norm_num [wav8]
  simp only [dynamicsOf, hrms]
  have hred : (([1 / 2, 1 / 10, 1 / 2, 1 / 10, 1 / 2, 1 / 10, 1 / 2,
      1 / 10].map (fun v : ℝ =>
        (v - [1 / 2, 1 / 10, 1 / 2, 1 / 10, 1 / 2, 1 / 10, 1 / 2, 1 / 10].sum
          / ([1 / 2, 1 / 10, 1 / 2, 1 / 10, 1 / 2, 1 / 10, 1 / 2,
            (1 / 10 : ℝ)].length : ℝ)) ^ 2)).sum
      / (([1 / 2, 1 / 10, 1 / 2, 1 / 10, 1 / 2, 1 / 10, 1 / 2,
        (1 / 10 : ℝ)].length : ℝ)))
      = (1 / 5 : ℝ) ^ 2 := by
    norm_num
  rw [hred, Real.sqrt_sq (by norm_num)]

theorem rowBandwidth_half : rowBandwidth 4 1 [1 / 2] = 0 := by
  simp only [rowBandwidth, rowCentroid_half]
  norm_num [binFreq, Finset.sum_range_one]

theorem rowBandwidth_tenth : rowBandwidth 4 1 [1 / 10] = 0 := by
  simp only [rowBandwidth, rowCentroid_tenth]
  norm_num [binFreq, Finset.sum_range_one]

theorem wav8_timbral : timbralComplexityOf wav8Spec 4 = 0 := by
  simp only [timbralComplexityOf, wav8Spec_mags, wav8_keep]
  have hw : wav8Spec.window = 1 := rfl
  simp only [hw, mags8, List.map_cons, List.map_nil, rowBandwidth_half,
    rowBandwidth_tenth]
  norm_num

theorem idft_one (v : Fin 1 → ℂ) : idft 1 v = fun _ => v 0 := by
  funext n
  simp [idft]

theorem covering_one (F n : ℕ) (hn : n < F) : coveringIdx F 1 1 n = [n] := by
  rw [coveringIdx]
  induction F with
  | zero => omega
  | succ F ih =>
    rw [List.range_succ, List.filter_append]
    rcases Nat.lt_or_ge n F with h | h
    · rw [show (List.range F).filter
          (fun f => decide (f * 1 ≤ n ∧ n < f * 1 + 1)) = [n] from by
        rw [← coveringIdx]
        exact ih h]
      have hF : List.filter (fun f => decide (f * 1 ≤ n ∧ n < f * 1 + 1)) [F]
          = [] := by
        rw [List.filter_eq_nil_iff]
        intro f hf
        simp only [List.mem_cons, List.not_mem_nil, or_false] at hf
        subst hf
        simp only [decide_eq_true_eq]
        omega
      rw [hF, List.append_nil]
    · have hnF : n = F := by omega
      subst hnF
      have h1 : (List.range n).filter
          (fun f => decide (f * 1 ≤ n ∧ n < f * 1 + 1)) = [] := by
        rw [List.filter_eq_nil_iff]
        intro f hf
        rw [List.mem_range] at hf
        simp only [decide_eq_true_eq]
        omega
      have h2 : List.filter (fun f => decide (f * 1 ≤ n ∧ n < f * 1 + 1)) [n]
          = [n] := by
        have : (decide (n * 1 ≤ n ∧ n < n * 1 + 1)) = true :=
          decide_eq_true (by omega)
        simp [List.filter, this]
      rw [h1, h2, List.nil_append]

theorem wav8Spec_getD (n : ℕ) (hn : n < 8) (j : Fin 1) :
    wav8Spec.spectra.getD n (fun _ => 0) j = ((wav8.getD n 0 : ℝ) : ℂ) := by
  interval_cases n <;> rfl

theorem invTransform_mask (mask : ℕ → ℕ → ℝ) :
    invTransform (maskSpectrogram wav8Spec mask)
      = (List.range 8).map (fun n => mask n 0 * wav8.getD n 0) := by
  show (List.range 8).map _ = _
  apply List.map_congr_left
  intro n hn
  rw [List.mem_range] at hn
  have hcov : coveringIdx ((maskSpectrogram wav8Spec mask).spectra.length)
      ((maskSpectrogram wav8Spec mask).hop) ((maskSpectrogram wav8Spec mask).window)
      n = [n] := by
    have hlen : (maskSpectrogram wav8Spec mask).spectra.length = 8 := by
      simp [maskSpectrogram, wav8Spec]
    rw [hlen]
    exact covering_one 8 n hn
  rw [hcov]
  simp only [List.map_cons, List.map_nil, List.sum_cons, List.sum_nil, add_zero]
  show (finGetC (idft 1
      ((maskSpectrogram wav8Spec mask).spectra.getD n (fun _ => 0)))
      (n - n * 1)).re / windowCoeff 1 (n - n * 1) = mask n 0 * wav8.getD n 0
  rw [show n - n * 1 = 0 by omega]
  have hsget : (maskSpectrogram wav8Spec mask).spectra.getD n (fun _ => 0)
      = fun j : Fin 1 => ((mask n (min j.val (1 - j.val)) : ℝ) : ℂ)
          * wav8Spec.spectra.getD n (fun _ => 0) j := by
    show ((List.range 8).map (fun t => fun j : Fin 1 =>
        ((mask t (min j.val (1 - j.val)) : ℝ) : ℂ)
          * wav8Spec.spectra.getD t (fun _ => 0) j)).getD n (fun _ => 0) = _
    rw [List.getD_eq_getElem _ _ (by simpa using hn)]
    simp
  rw [hsget, idft_one]
  rw [finGetC, dif_pos one_pos]
  show (((mask n (min (0 : ℕ) (1 - 0)) : ℝ) : ℂ)
      * wav8Spec.spectra.getD n (fun _ => 0) (⟨0, one_pos⟩ : Fin 1)).re
        / windowCoeff 1 0 = mask n 0 * wav8.getD n 0
  rw [wav8Spec_getD n hn]
  have hwc : windowCoeff 1 0 = 1 := by
    rw [windowCoeff, if_pos le_rfl]
  rw [hwc, div_one, ← Complex.ofReal_mul, Complex.ofReal_re]
  norm_num

theorem medianR_single (c : ℝ) : medianR [c] = c := by
  norm_num [medianR, List.insertionSort, List.orderedInsert]

theorem medianR_A : medianR [(1 : ℝ) / 2, 1 / 10] = 1 / 2 := by
  norm_num [medianR, List.insertionSort, List.orderedInsert]

theorem medianR_B : medianR [(1 : ℝ) / 2, 1 / 10, 1 / 2] = 1 / 2 := by
  norm_num [medianR, List.insertionSort, List.orderedInsert]

theorem medianR_C : medianR [(1 : ℝ) / 10, 1 / 2, 1 / 10] = 1 / 10 := by
  norm_num [medianR, List.insertionSort, List.orderedInsert]

theorem mtf0 : medianTimeFilter mags8 0 0 = 1 / 2 := by
  rw [show medianTimeFilter mags8 0 0 = medianR [(1 : ℝ) / 2, 1 / 10] from rfl]
  exact medianR_A

theorem mtf1 : medianTimeFilter mags8 1 0 = 1 / 2 := by
  rw [show medianTimeFilter mags8 1 0
      = medianR [(1 : ℝ) / 2, 1 / 10, 1 / 2] from rfl]
  exact medianR_B

theorem mtf2 : medianTimeFilter mags8 2 0 = 1 / 10 := by
  rw [show medianTimeFilter mags8 2 0
      = medianR [(1 : ℝ) / 10, 1 / 2, 1 / 10] from rfl]
  exact medianR_C

theorem mtf3 : medianTimeFilter mags8 3 0 = 1 / 2 := by
  rw [show medianTimeFilter mags8 3 0
      = medianR [(1 : ℝ) / 2, 1 / 10, 1 / 2] from rfl]
  exact medianR_B

theorem mtf4 : medianTimeFilter mags8 4 0 = 1 / 10 := by
  rw [show medianTimeFilter mags8 4 0
      = medianR [(1 : ℝ) / 10, 1 / 2, 1 / 10] from rfl]
  exact medianR_C

theorem mtf5 : medianTimeFilter mags8 5 0 = 1 / 2 := by
  rw [show medianTimeFilter mags8 5 0
      = medianR [(1 : ℝ) / 2, 1 / 10, 1 / 2] from rfl]
  exact medianR_B

theorem mtf6 : medianTimeFilter mags8 6 0 = 1 / 10 := by
  rw [show medianTimeFilter mags8 6 0
      = medianR [(1 : ℝ) / 10, 1 / 2, 1 / 10] from rfl]
  exact medianR_C

theorem mtf7 : medianTimeFilter mags8 7 0 = 1 / 2 := by
  rw [show medianTimeFilter mags8 7 0 = medianR [(1 : ℝ) / 2, 1 / 10] from rfl]
  exact medianR_A

theorem mff0 : medianFreqFilter mags8 1 0 0 = 1 / 2 := by
  rw [show medianFreqFilter mags8 1 0 0 = medianR [(1 : ℝ) / 2] from rfl]
  exact medianR_single _

theorem mff1 : medianFreqFilter mags8 1 1 0 = 1 / 10 := by
  rw [show medianFreqFilter mags8 1 1 0 = medianR [(1 : ℝ) / 10] from rfl]
  exact medianR_single _

theorem mff2 : medianFreqFilter mags8 1 2 0 = 1 / 2 := by
  rw [show medianFreqFilter mags8 1 2 0 = medianR [(1 : ℝ) / 2] from rfl]
  exact medianR_single _

theorem mff3 : medianFreqFilter mags8 1 3 0 = 1 / 10 := by
  rw [show medianFreqFilter mags8 1 3 0 = medianR [(1 : ℝ) / 10] from rfl]
  exact medianR_single _

theorem mff4 : medianFreqFilter mags8 1 4 0 = 1 / 2 := by
  rw [show medianFreqFilter mags8 1 4 0 = medianR [(1 : ℝ) / 2] from rfl]
  exact medianR_single _

theorem mff5 : medianFreqFilter mags8 1 5 0 = 1 / 10 := by
  rw [show medianFreqFilter mags8 1 5 0 = medianR [(1 : ℝ) / 10] from rfl]
  exact medianR_single _

theorem mff6 : medianFreqFilter mags8 1 6 0 = 1 / 2 := by
  rw [show medianFreqFilter mags8 1 6 0 = medianR [(1 : ℝ) / 2] from rfl]
  exact medianR_single _

theorem mff7 : medianFreqFilter mags8 1 7 0 = 1 / 10 := by
  rw [show medianFreqFilter mags8 1 7 0 = medianR [(1 : ℝ) / 10] from rfl]
  exact medianR_single _

theorem hm0 : harmMask mags8 1 0 0 = 1 / 2 := by
  simp only [harmMask, mtf0, mff0]
  norm_num

theorem hm1 : harmMask mags8 1 1 0 = 5 / 6 := by
  simp only [harmMask, mtf1, mff1]
  norm_num

theorem hm2 : harmMask mags8 1 2 0 = 1 / 6 := by
  simp only [harmMask, mtf2, mff2]
  norm_num

theorem hm3 : harmMask mags8 1 3 0 = 5 / 6 := by
  simp only [harmMask, mtf3, mff3]
  norm_num

theorem hm4 : harmMask mags8 1 4 0 = 1 / 6 := by
  simp only [harmMask, mtf4, mff4]
  norm_num

theorem hm5 : harmMask mags8 1 5 0 = 5 / 6 := by
  simp only [harmMask, mtf5, mff5]
  norm_num

theorem hm6 : harmMask mags8 1 6 0 = 1 / 6 := by
  simp only [harmMask, mtf6, mff6]
  norm_num

theorem hm7 : harmMask mags8 1 7 0 = 5 / 6 := by
  simp only [harmMask, mtf7, mff7]
  norm_num

theorem pm0 : percMask mags8 1 0 0 = 1 / 2 := by
  simp only [percMask, mtf0, mff0]
  norm_num

theorem pm1 : percMask mags8 1 1 0 = 1 / 6 := by
  simp only [percMask, mtf1, mff1]
  norm_num

theorem pm2 : percMask mags8 1 2 0 = 5 / 6 := by
  simp only [percMask, mtf2, mff2]
  norm_num

theorem pm3 : percMask mags8 1 3 0 = 1 / 6 := by
  simp only [percMask, mtf3, mff3]
  norm_num

theorem pm4 : percMask mags8 1 4 0 = 5 / 6 := by
  simp only [percMask, mtf4, mff4]
  norm_num

theorem pm5 : percMask mags8 1 5 0 = 1 / 6 := by
  simp only [percMask, mtf5, mff5]
  norm_num

theorem pm6 : percMask mags8 1 6 0 = 5 / 6 := by
  simp only [percMask, mtf6, mff6]
  norm_num

theorem pm7 : percMask mags8 1 7 0 = 1 / 6 := by
  simp only [percMask, mtf7, mff7]
  norm_num

theorem wav8_perc : percussivenessOf wav8Spec = 47 / 72 := by
  simp only [percussivenessOf, HarmonicPercussiveSeparator.separate, wav8Spec_mags]
  have hb : wav8Spec.window / 2 + 1 = 1 := rfl
  simp only [hb]
  rw [invTransform_mask, invTransform_mask]
  have hmr : List.range 8 = [0, 1, 2, 3, 4, 5, 6, 7] := rfl
  simp only [hmr, List.map_cons, List.map_nil, hm0, hm1, hm2, hm3, hm4, hm5,
    hm6, hm7, pm0, pm1, pm2, pm3, pm4, pm5, pm6, pm7]
  have ha1 : |(1 / 4 : ℝ)| = 1 / 4 := by norm_num
  have ha2 : |(1 / 12 : ℝ)| = 1 / 12 := by norm_num
  have ha3 : |(1 / 60 : ℝ)| = 1 / 60 := by norm_num
  have ha4 : |(5 / 12 : ℝ)| = 5 / 12 := by norm_num
  norm_num [meanAbs, wav8, clamp01, max_def, min_def, ha1, ha2, ha3, ha4]

theorem tempoSubScore_120 : tempoSubScore 120 = 0 := by
  have ha : |((120 : ℚ) : ℝ) - ((TEMPO_TARGET_BPM : ℚ) : ℝ)| = 60 := by
    norm_num [TEMPO_TARGET_BPM]
  simp only [tempoSubScore, ha]
  norm_num [TEMPO_NORM_RANGE, clamp01, max_def, min_def]

theorem extract_eval8 :
    MeditationFeatureExtractor.extract demoCfg wav8 4 = .ok report8 := by
  have hT : FrameTransform.transform wav8 demoCfg.window demoCfg.hop
      = .ok wav8Spec := wav8_transform_eval
  have hG : SilenceGapDetector.detect wav8 4 demoCfg.min_silence_ms = .ok [] :=
    wav8_detect
  have hdyn : dynamicsOf wav8 demoCfg.window demoCfg.hop = 1 / 5 := wav8_dynamics
  simp only [MeditationFeatureExtractor.extract, hT, wav8_tempo, wav8_warmth, hG,
    hdyn, wav8_timbral, wav8_perc]
  rw [tempoSubScore_120]
  have h2 : inverseNormalized (1 / 5) DYNAMICS_REF = 3 / 5 := by
    norm_num [inverseNormalized, DYNAMICS_REF, clamp01, max_def, min_def]
  have h3 : inverseNormalized 0 TIMBRAL_REF = 1 := by
    norm_num [inverseNormalized, TIMBRAL_REF, clamp01, max_def, min_def]
  rw [h2, h3]
  have h4 : meditationScoreOf 0 1 (3 / 5) 1 (1 - 47 / 72) = 1253 / 2400 := by
    norm_num [meditationScoreOf, WEIGHT_TEMPO, WEIGHT_WARMTH, WEIGHT_DYNAMICS,
      WEIGHT_TIMBRAL, WEIGHT_PERCUSSIVE]
  rw [h4]
  have h5 : suitabilityOf (1253 / 2400) = .good := by
    rw [suitabilityOf, if_neg (by norm_num), if_pos (by norm_num)]
  rw [h5]
  rfl

/-- Concrete run of the C7 theorem on the two-sample waveform. -/
theorem C7_transform_roundtrip_witness :
    (invTransform wav2Spec).length = wav2.length ∧
    ∀ n, n < wav2.length →
      |(invTransform wav2Spec).getD n 0 - wav2.getD n 0| ≤ 1 / 10000 :=
  C7_transform_roundtrip wav2 1 1 one_pos one_pos le_rfl wav2Spec
    wav2_transform_eval

theorem one_sub_clamp01_nonneg (v : ℝ) : 0 ≤ 1 - clamp01 v := by
  have := clamp01_le_one v
  linarith

theorem one_sub_clamp01_le_one (v : ℝ) : 1 - clamp01 v ≤ 1 := by
  have := clamp01_nonneg v
  linarith

theorem percussivenessOf_nonneg (S : Spectrogram) : 0 ≤ percussivenessOf S :=
  clamp01_nonneg _

theorem percussivenessOf_le_one (S : Spectrogram) : percussivenessOf S ≤ 1 :=
  clamp01_le_one _

theorem analyze_ok_score (S : Spectrogram) (sr : ℕ) (w : WarmthResult)
    (hw : SpectralWarmthAnalyzer.analyze S sr = .ok w) :
    w.warmth_score = 1 - clamp01 (w.centroid_hz / (WARMTH_REFERENCE_HZ : ℝ)) := by
  by_cases hne : nonSilentRows S.mags = []
  · rw [SpectralWarmthAnalyzer.analyze] at hw
    simp only [hne] at hw
    simp at hw
  · simp only [SpectralWarmthAnalyzer.analyze, if_neg hne] at hw
    injection hw with h
    rw [← h]

/-- Everything an ok result of the extractor determines: each sub-feature
succeeded and the report is assembled from exactly their results. -/
theorem extract_ok_elim (cfg : AnalyzerConfig) (x : List ℝ) (sr : ℕ)
    (r : FeatureReport)
    (hr : MeditationFeatureExtractor.extract cfg x sr = .ok r) :
    ∃ S t w gaps,
      FrameTransform.transform x cfg.window cfg.hop = .ok S ∧
      TempoEstimator.estimate S sr = .ok t ∧
      SpectralWarmthAnalyzer.analyze S sr = .ok w ∧
      SilenceGapDetector.detect x sr cfg.min_silence_ms = .ok gaps ∧
      r = ⟨t.bpm, t.category, w.centroid_hz, w.warmth_score, w.character,
        dynamicsOf x cfg.window cfg.hop, timbralComplexityOf S sr,
        percussivenessOf S, gaps,
        meditationScoreOf (tempoSubScore t.bpm) w.warmth_score
          (inverseNormalized (dynamicsOf x cfg.window cfg.hop) DYNAMICS_REF)
          (inverseNormalized (timbralComplexityOf S sr) TIMBRAL_REF)
          (1 - percussivenessOf S),
        suitabilityOf (meditationScoreOf (tempoSubScore t.bpm) w.warmth_score
          (inverseNormalized (dynamicsOf x cfg.window cfg.hop) DYNAMICS_REF)
          (inverseNormalized (timbralComplexityOf S sr) TIMBRAL_REF)
          (1 - percussivenessOf S))⟩ := by
  cases hT : FrameTransform.transform x cfg.window cfg.hop with
  | error e =>
    simp only [MeditationFeatureExtractor.extract, hT] at hr
    exact Except.noConfusion hr
  | ok S =>
    cases hE : TempoEstimator.estimate S sr with
    | error e =>
      simp only [MeditationFeatureExtractor.extract, hT, hE] at hr
      exact Except.noConfusion hr
    | ok t =>
      cases hA : SpectralWarmthAnalyzer.analyze S sr with
      | error e =>
        simp only [MeditationFeatureExtractor.extract, hT, hE, hA] at hr
        exact Except.noConfusion hr
      | ok w =>
        cases hG : SilenceGapDetector.detect x sr cfg.min_silence_ms with
        | error e =>
          simp only [MeditationFeatureExtractor.extract, hT, hE, hA, hG] at hr
          exact Except.noConfusion hr
        | ok gaps =>
          simp only [MeditationFeatureExtractor.extract, hT, hE, hA, hG] at hr
          injection hr with h
          exact ⟨S, t, w, gaps, rfl, hE, hA, rfl, h.symm⟩

/-- C4: every sub-feature failure aborts the whole extraction as a single
AnalysisFailed wrapping the first underlying cause, and an ok report is
assembled from exactly the sub-feature results, never from defaulted
values. -/
theorem C4_extract_failure_propagation (cfg : AnalyzerConfig) (x : List ℝ)
    (sr : ℕ) :
    (∀ e, FrameTransform.transform x cfg.window cfg.hop = .error e →
      MeditationFeatureExtractor.extract cfg x sr = .error (.analysisFailed e)) ∧
    (∀ S e, FrameTransform.transform x cfg.window cfg.hop = .ok S →
      TempoEstimator.estimate S sr = .error e →
      MeditationFeatureExtractor.extract cfg x sr = .error (.analysisFailed e)) ∧
    (∀ S t e, FrameTransform.transform x cfg.window cfg.hop = .ok S →
      TempoEstimator.estimate S sr = .ok t →
      SpectralWarmthAnalyzer.analyze S sr = .error e →
      MeditationFeatureExtractor.extract cfg x sr = .error (.analysisFailed e)) ∧
    (∀ S t w e, FrameTransform.transform x cfg.window cfg.hop = .ok S →
      TempoEstimator.estimate S sr = .ok t →
      SpectralWarmthAnalyzer.analyze S sr = .ok w →
      SilenceGapDetector.detect x sr cfg.min_silence_ms = .error e →
      MeditationFeatureExtractor.extract cfg x sr = .error (.analysisFailed e)) ∧
    (∀ r, MeditationFeatureExtractor.extract cfg x sr = .ok r →
      ∃ S t w gaps,
        FrameTransform.transform x cfg.window cfg.hop = .ok S ∧
        TempoEstimator.estimate S sr = .ok t ∧
        SpectralWarmthAnalyzer.analyze S sr = .ok w ∧
        SilenceGapDetector.detect x sr cfg.min_silence_ms = .ok gaps ∧
        r.tempo_bpm = t.bpm ∧ r.tempo_category = t.category ∧
        r.centroid_hz = w.centroid_hz ∧ r.warmth_score = w.warmth_score ∧
        r.warmth_character = w.character ∧ r.silence_gaps = gaps ∧
        r.dynamics = dynamicsOf x cfg.window cfg.hop ∧
        r.timbral_complexity = timbralComplexityOf S sr ∧
        r.percussiveness = percussivenessOf S) := by
  refine ⟨?_, ?_, ?_, ?_, ?_⟩
  · intro e h
    simp only [MeditationFeatureExtractor.extract, h]
  · intro S e h1 h2
    simp only [MeditationFeatureExtractor.extract, h1, h2]
  · intro S t e h1 h2 h3
    simp only [MeditationFeatureExtractor.extract, h1, h2, h3]
  · intro S t w e h1 h2 h3 h4
    simp only [MeditationFeatureExtractor.extract, h1, h2, h3, h4]
  · intro r hr
    obtain ⟨S, t, w, gaps, hT, hE, hA, hG, hrec⟩ := extract_ok_elim cfg x sr r hr
    subst hrec
    exact ⟨S, t, w, gaps, hT, hE, hA, hG, rfl, rfl, rfl, rfl, rfl, rfl, rfl,
      rfl, rfl⟩

/-- Concrete run of the C4 theorem: on the silent waveform the tempo
estimator fails with InsufficientSignal and the extractor surfaces exactly
AnalysisFailed InsufficientSignal. -/
theorem C4_extract_failure_propagation_witness :
    MeditationFeatureExtractor.extract demoCfg silentWav 4
      = .error (.analysisFailed .insufficientSignal) :=
  (C4_extract_failure_propagation demoCfg silentWav 4).2.1 silentSpec
    .insufficientSignal silent_transform_eval
    (estimate_all_zero silentSpec 4 (mags_all_zero silentSpec silentSpec_spectra_zero))

/-- C1: every report the extractor accepts carries a meditation score in
the unit interval, and its suitability label is the one the fixed
thresholds 0.75, 0.5 and 0.25 assign to that score, boundary values
included. -/
theorem C1_meditation_score_bounds_and_suitability (cfg : AnalyzerConfig)
    (x : List ℝ) (sr : ℕ) (r : FeatureReport)
    (hr : MeditationFeatureExtractor.extract cfg x sr = .ok r) :
    0 ≤ r.meditation_score ∧ r.meditation_score ≤ 1 ∧
    r.suitability = suitabilityOf r.meditation_score ∧
    ((0.75 : ℝ) ≤ r.meditation_score → r.suitability = .excellent) ∧
    ((0.5 : ℝ) ≤ r.meditation_score ∧ r.meditation_score < 0.75 →
      r.suitability = .good) ∧
    ((0.25 : ℝ) ≤ r.meditation_score ∧ r.meditation_score < 0.5 →
      r.suitability = .fair) ∧
    (r.meditation_score < 0.25 → r.suitability = .poor) := by
  obtain ⟨S, t, w, gaps, hT, hE, hA, hG, hrec⟩ := extract_ok_elim cfg x sr r hr
  have hws := analyze_ok_score S sr w hA
  subst hrec
  dsimp only
  have ha1 : 0 ≤ tempoSubScore t.bpm := one_sub_clamp01_nonneg _
  have ha2 : tempoSubScore t.bpm ≤ 1 := one_sub_clamp01_le_one _
  have hb1 : 0 ≤ w.warmth_score := by
    rw [hws]
    exact one_sub_clamp01_nonneg _
  have hb2 : w.warmth_score ≤ 1 := by
    rw [hws]
    exact one_sub_clamp01_le_one _
  have hc1 : 0 ≤ inverseNormalized (dynamicsOf x cfg.window cfg.hop) DYNAMICS_REF :=
    one_sub_clamp01_nonneg _
  have hc2 : inverseNormalized (dynamicsOf x cfg.window cfg.hop) DYNAMICS_REF ≤ 1 :=
    one_sub_clamp01_le_one _
  have hd1 : 0 ≤ inverseNormalized (timbralComplexityOf S sr) TIMBRAL_REF :=
    one_sub_clamp01_nonneg _
  have hd2 : inverseNormalized (timbralComplexityOf S sr) TIMBRAL_REF ≤ 1 :=
    one_sub_clamp01_le_one _
  have he1 : 0 ≤ 1 - percussivenessOf S := by
    have := percussivenessOf_le_one S
    linarith
  have he2 : 1 - percussivenessOf S ≤ 1 := by
    have := percussivenessOf_nonneg S
    linarith
  have hscore1 : 0 ≤ meditationScoreOf (tempoSubScore t.bpm) w.warmth_score
      (inverseNormalized (dynamicsOf x cfg.window cfg.hop) DYNAMICS_REF)
      (inverseNormalized (timbralComplexityOf S sr) TIMBRAL_REF)
      (1 - percussivenessOf S) := by
    rw [meditationScoreOf]
    have hw1 : ((WEIGHT_TEMPO : ℚ) : ℝ) = 3 / 10 := by norm_num [WEIGHT_TEMPO]
    have hw2 : ((WEIGHT_WARMTH : ℚ) : ℝ) = 1 / 5 := by norm_num [WEIGHT_WARMTH]
    have hw3 : ((WEIGHT_DYNAMICS : ℚ) : ℝ) = 1 / 5 := by norm_num [WEIGHT_DYNAMICS]
    have hw4 : ((WEIGHT_TIMBRAL : ℚ) : ℝ) = 3 / 20 := by norm_num [WEIGHT_TIMBRAL]
    have hw5 : ((WEIGHT_PERCUSSIVE : ℚ) : ℝ) = 3 / 20 := by
      norm_num [WEIGHT_PERCUSSIVE]
    rw [hw1, hw2, hw3, hw4, hw5]
    nlinarith
  have hscore2 : meditationScoreOf (tempoSubScore t.bpm) w.warmth_score
      (inverseNormalized (dynamicsOf x cfg.window cfg.hop) DYNAMICS_REF)
      (inverseNormalized (timbralComplexityOf S sr) TIMBRAL_REF)
      (1 - percussivenessOf S) ≤ 1 := by
    rw [meditationScoreOf]
    have hw1 : ((WEIGHT_TEMPO : ℚ) : ℝ) = 3 / 10 := by norm_num [WEIGHT_TEMPO]
    have hw2 : ((WEIGHT_WARMTH : ℚ) : ℝ) = 1 / 5 := by norm_num [WEIGHT_WARMTH]
    have hw3 : ((WEIGHT_DYNAMICS : ℚ) : ℝ) = 1 / 5 := by norm_num [WEIGHT_DYNAMICS]
    have hw4 : ((WEIGHT_TIMBRAL : ℚ) : ℝ) = 3 / 20 := by norm_num [WEIGHT_TIMBRAL]
    have hw5 : ((WEIGHT_PERCUSSIVE : ℚ) : ℝ) = 3 / 20 := by
      norm_num [WEIGHT_PERCUSSIVE]
    rw [hw1, hw2, hw3, hw4, hw5]
    nlinarith
  refine ⟨hscore1, hscore2, rfl, ?_, ?_, ?_, ?_⟩
  · intro h
    show suitabilityOf _ = _
    rw [suitabilityOf, if_pos h]
  · rintro ⟨h5, h75⟩
    show suitabilityOf _ = _
    rw [suitabilityOf, if_neg (not_le.mpr h75), if_pos h5]
  · rintro ⟨h25, h5⟩
    show suitabilityOf _ = _
    rw [suitabilityOf, if_neg (not_le.mpr (lt_of_lt_of_le h5 (by norm_num))),
      if_neg (not_le.mpr h5), if_pos h25]
  · intro h
    show suitabilityOf _ = _
    rw [suitabilityOf, if_neg (not_le.mpr (lt_of_lt_of_le h (by norm_num))),
      if_neg (not_le.mpr (lt_of_lt_of_le h (by norm_num))),
      if_neg (not_le.mpr h)]

/-- Concrete run of the C6 theorem on the alternating waveform at 4 Hz
with a 200 ms minimum silence duration. -/
theorem C6_detect_silence_gaps_witness :
    ∃ gaps, SilenceGapDetector.detect wav8 4 200 = .ok gaps ∧
      List.Pairwise (fun a b : SilenceGap => a.start_sec < b.start_sec) gaps ∧
      ∀ g ∈ gaps, g.start_sec < g.end_sec :=
  (C6_detect_silence_gaps wav8 4 200 (by norm_num)).2 (by norm_num)

/-- Concrete run of the C1 theorem: the extractor accepts the alternating
waveform and returns a report whose score sits strictly inside the good
band. -/
theorem C1_meditation_score_bounds_and_suitability_witness :
    0 ≤ report8.meditation_score ∧ report8.meditation_score ≤ 1 ∧
    report8.suitability = suitabilityOf report8.meditation_score ∧
    ((0.75 : ℝ) ≤ report8.meditation_score → report8.suitability = .excellent) ∧
    ((0.5 : ℝ) ≤ report8.meditation_score ∧ report8.meditation_score < 0.75 →
      report8.suitability = .good) ∧
    ((0.25 : ℝ) ≤ report8.meditation_score ∧ report8.meditation_score < 0.5 →
      report8.suitability = .fair) ∧
    (report8.meditation_score < 0.25 → report8.suitability = .poor) :=
  C1_meditation_score_bounds_and_suitability demoCfg wav8 4 report8 extract_eval8

end MindfulSDK

namespace FreesoundSDK

/-- C8 counterexample: on a concrete catalog the search returns a record
whose dictionary keys are duration and rating — the very keys the demo
script reads — and not the duration_seconds and average_rating fields the
claim states, so no returned record contains exactly the claimed fields. -/
theorem C8_result_fields_counterexample :
    searchSounds demoCatalog "singing bowl" 10 30 5 = [demoSound, demoSound2] ∧
    demoSound.toDict.map Prod.fst ≠ specResultFields ∧
    "duration_seconds" ∉ demoSound.toDict.map Prod.fst ∧
    "duration" ∈ demoSound.toDict.map Prod.fst := by decide

/-- C8 amended: search_sounds returns an ordered subsequence of the
catalog whose records each carry exactly the keys id, name, duration,
rating, tags and preview_url. -/
theorem C8_search_result_fields (catalog : List SoundRecord) (query : String)
    (durLo durHi : ℚ) (pageSize : ℕ) :
    List.Sublist (searchSounds catalog query durLo durHi pageSize) catalog ∧
    ∀ r ∈ searchSounds catalog query durLo durHi pageSize,
      r.toDict.map Prod.fst = soundRecordKeys := by
  constructor
  · exact (List.take_sublist _ _).trans (List.filter_sublist _)
  · intro r hr
    rfl

/-- Concrete run of the amended C8 theorem on the concrete catalog. -/
theorem C8_search_result_fields_witness :
    List.Sublist (searchSounds demoCatalog "singing bowl" 10 30 5) demoCatalog ∧
    demoSound.toDict.map Prod.fst = soundRecordKeys :=
  ⟨(C8_search_result_fields demoCatalog "singing bowl" 10 30 5).1,
    (C8_search_result_fields demoCatalog "singing bowl" 10 30 5).2 demoSound
      (by decide)⟩

/-- C9: the preset table is one fixed class-level constant — every client
instance reads the same table whatever its credentials, the table is
readable with no client at all, every entry carries a non-empty
description, and the preset the demo script searches (nature) is
present. -/
theorem C9_meditation_presets_constant :
    (∀ c : FreesoundClient, c.presets = MEDITATION_PRESETS) ∧
    (MEDITATION_PRESETS.map (fun p => p.2.description)).all
        (fun d => !d.isEmpty) = true ∧
    (MEDITATION_PRESETS.map Prod.fst).contains "nature" = true :=
  ⟨fun _ => rfl, rfl, rfl⟩

/-- C10: a returned search record may carry an empty (falsy) preview_url,
and the demo script's guard downloads exactly the records with a
non-empty one, so callers must test the field before downloading. -/
theorem C10_preview_url_optional :
    (∃ r ∈ searchSounds demoCatalog "singing bowl" 10 30 5, r.preview_url = "") ∧
    downloadList (searchSounds demoCatalog "singing bowl" 10 30 5) = [demoSound2] ∧
    shouldDownloadPreview demoSound = false ∧
    shouldDownloadPreview demoSound2 = true := by decide

end FreesoundSDK
